import Mathlib

/- Verification of the resume parsing core of the
   carved-duck/resume-autofill-extension repository.

   The embedding translates, from the Python sources:
   - `backend/modules/resume_parser.py` (class `ResumeParser`): text
     acquisition with OCR fallback and the section-aware heuristic parser
     (namespace `ResumeParser` below);
   - `enhanced_backend_server.py` (class `EnhancedResumeParser`): the
     variant text acquisition, its `parse_education` and its
     `extract_dates_from_string` helper (namespace `EnhancedResumeParser`).

   Python strings are modelled as Lean `String` (a wrapper around
   `List Char`); Python dicts with fixed keys become structures whose
   optional keys are `Option String`.  The regular expressions appearing in
   the source are hand-compiled to explicit matchers over `List Char` that
   mirror the leftmost-match and greedy/backtracking behaviour of Python's
   `re` on those concrete patterns; `re.findall` is the `scanAll` loop.
   Python `set`s (skills) are modelled as insertion-ordered de-duplicated
   lists, the deterministic ordered-set model the spec requires for the
   source's nondeterministically ordered sets.  A caught exception around a
   unit of work is modelled by feeding that unit's result as
   `Option String` (`none` = the unit raised), and availability of optional
   backends as explicit booleans. -/

set_option maxRecDepth 8192

/-! ## Python string primitives -/

/-- Python whitespace for `str.strip` / `\s`: space, tab, newline, carriage
return, vertical tab, form feed. -/
def isPySpaceC (c : Char) : Bool :=
  c == ' ' || c == '\t' || c == '\n' || c == '\r' || c == '\x0b' || c == '\x0c'

def trimLeftC (xs : List Char) : List Char := xs.dropWhile isPySpaceC

def trimRightC (xs : List Char) : List Char := (xs.reverse.dropWhile isPySpaceC).reverse

/-- Python `str.strip()` on the character list. -/
def stripList (xs : List Char) : List Char := trimRightC (trimLeftC xs)

/-- Python `str.strip()`. -/
def pyStrip (s : String) : String := String.mk (stripList s.data)

/-- Python `str.lower()` (ASCII, which is all the source's inputs use). -/
def pyLower (s : String) : String := String.mk (s.data.map Char.toLower)

def pyTitleAux : Bool → List Char → List Char
  | _, [] => []
  | prevAlpha, c :: rest =>
    if c.isAlpha then
      (if prevAlpha then c.toLower else c.toUpper) :: pyTitleAux true rest
    else
      c :: pyTitleAux false rest

/-- Python `str.title()`: first letter of every alphabetic run upper-cased,
the rest lower-cased. -/
def pyTitle (s : String) : String := String.mk (pyTitleAux false s.data)

/-- Split on every character satisfying `p`, keeping empty pieces, like
Python `str.split(ch)` for a one-character separator. -/
def splitChars (p : Char → Bool) : List Char → List (List Char)
  | [] => [[]]
  | c :: cs =>
    if p c then [] :: splitChars p cs
    else
      match splitChars p cs with
      | h :: t => (c :: h) :: t
      | [] => [[c]]

/-- `[line.strip() for line in text.split('\n') if line.strip()]`. -/
def pyLines (s : String) : List String :=
  ((splitChars (fun c => c == '\n') s.data).map (fun l => String.mk (stripList l))).filter
    (fun l => l ≠ "")

/-- Python `str.split()` with no argument: split on whitespace runs,
dropping empty pieces. -/
def pySplitWs (s : String) : List String :=
  ((splitChars isPySpaceC s.data).map String.mk).filter (fun l => l ≠ "")

def startsWithL : List Char → List Char → Bool
  | [], _ => true
  | _ :: _, [] => false
  | a :: as, b :: bs => a == b && startsWithL as bs

/-- `needle` occurs as a contiguous substring of the haystack. -/
def hasSubL (needle : List Char) : List Char → Bool
  | [] => startsWithL needle []
  | c :: t => startsWithL needle (c :: t) || hasSubL needle t

/-- Python `sub in s` on strings. -/
def strHasSub (s sub : String) : Bool := hasSubL sub.data s.data

/-- `any(kw in ll for kw in kws)`. -/
def anyKw (ll : String) (kws : List String) : Bool := kws.any (fun k => strHasSub ll k)

/-! ## Regex building blocks (`\w`, `\b`, classes, case-insensitivity) -/

def isWordChar (c : Char) : Bool := c.isAlphanum || c == '_'

/-- `\b` tested between the previous character (none at string start) and
the character at the current position. -/
def boundaryBefore (prev : Option Char) (c : Char) : Bool :=
  match prev with
  | none => isWordChar c
  | some p => !(isWordChar p == isWordChar c)

/-- `\b` after a match whose last consumed character is a word character:
holds at end of input or before a non-word character. -/
def nonWordHead : List Char → Bool
  | [] => true
  | c :: _ => !isWordChar c

/-- `\b` tested between the last consumed character and the rest of the
input. -/
def boundaryAfterL (lastC : Char) (rest : List Char) : Bool :=
  match rest with
  | [] => isWordChar lastC
  | c :: _ => !(isWordChar lastC == isWordChar c)

/-- `\bword\b` prefix test at the current position for an all-letter word. -/
def wordAt (w : List Char) (hay : List Char) : Bool :=
  startsWithL w hay && nonWordHead (hay.drop w.length)

def wordSearchAux (w : List Char) : Option Char → List Char → Bool
  | _, [] => false
  | prev, c :: t => (boundaryBefore prev c && wordAt w (c :: t)) || wordSearchAux w (some c) t

/-- `re.search(r'\bw\b', s)` for an all-letter word `w`. -/
def wordSearch (s w : String) : Bool := wordSearchAux w.data none s.data

/-- `re.search(r'\b(w1|w2|...)\b', s)` for all-letter alternatives. -/
def anyWordSearch (ws : List String) (s : String) : Bool := ws.any (fun w => wordSearch s w)

/-- Case-insensitive literal (given lower-cased): returns the consumed
original characters and the rest. -/
def ciStarts (w : List Char) (s : List Char) : Option (List Char × List Char) :=
  match w, s with
  | [], rest => some ([], rest)
  | _ :: _, [] => none
  | a :: as, c :: cs =>
    if a == c.toLower then (ciStarts as cs).map (fun p => (c :: p.1, p.2)) else none

def orO {α : Type} (a b : Option α) : Option α :=
  match a with
  | some x => some x
  | none => b

/-- Exactly `n` characters matching `\d`. -/
def takeDigits : Nat → List Char → Option (List Char × List Char)
  | 0, s => some ([], s)
  | Nat.succ _, [] => none
  | Nat.succ n, c :: t =>
    if c.isDigit then (takeDigits n t).map (fun p => (c :: p.1, p.2)) else none

/-- Greedy optional single character (`x?`): try consuming first, then not,
passing the consumed characters and the rest to the continuation. -/
def tryOptCh {α : Type} (p : Char → Bool) (s : List Char)
    (k : List Char → List Char → Option α) : Option α :=
  match s with
  | c :: rest => if p c then orO (k [c] rest) (k [] s) else k [] s
  | [] => k [] s

/-- `re.findall`-style scan: leftmost matches, continuing after each match
(our matchers always consume at least one character), advancing one
character after a failed attempt.  The matcher receives the previous
character for `\b` tests and returns (result, rest, last consumed char). -/
def scanAll {α : Type} (m : List Char → Option Char → Option (α × List Char × Option Char)) :
    Nat → Option Char → List Char → List α
  | 0, _, _ => []
  | Nat.succ fuel, prev, s =>
    match m s prev with
    | some (a, rest, lc) => a :: scanAll m fuel lc rest
    | none =>
      match s with
      | [] => []
      | c :: t => scanAll m fuel (some c) t

/-! ## The email pattern

`r'\b[A-Za-z0-9._%+-]+@[A-Za-z0-9.-]+\.[A-Z|a-z]{2,}\b'` (discovery, with
`re.findall`) and `r'^[A-Za-z0-9._%+-]+@[A-Za-z0-9.-]+\.[A-Z|a-z]{2,}$'`
(strict validation, with `re.match`).  Note `[A-Z|a-z]` contains a literal
`|`. -/

def isLocalChar (c : Char) : Bool :=
  c.isAlphanum || c == '.' || c == '_' || c == '%' || c == '+' || c == '-'

def isDomChar (c : Char) : Bool := c.isAlphanum || c == '.' || c == '-'

def isTldChar (c : Char) : Bool := c.isAlpha || c == '|'

/-- Backtrack on the length of the greedy `[A-Z|a-z]{2,}` part: longest
first, at least 2, followed by `\b`. -/
def emailTldTry (loc dom : List Char) (t : List Char) : Nat → Option (String × List Char × Option Char)
  | 0 => none
  | Nat.succ j =>
    if Nat.succ j < 2 then none
    else
      let tld := t.take (Nat.succ j)
      let rest := t.drop (Nat.succ j)
      let lastC := tld.getLastD 'a'
      if boundaryAfterL lastC rest then
        some (String.mk (loc ++ '@' :: dom ++ '.' :: tld), rest, some lastC)
      else emailTldTry loc dom t j

/-- Backtrack on the length of the greedy `[A-Za-z0-9.-]+` part: longest
first, at least 1, followed by a literal `.` and the TLD part. -/
def emailDomTry (loc : List Char) (afterAt : List Char) : Nat → Option (String × List Char × Option Char)
  | 0 => none
  | Nat.succ k =>
    match afterAt.drop (Nat.succ k) with
    | '.' :: t =>
      (match emailTldTry loc (afterAt.take (Nat.succ k)) t (t.takeWhile isTldChar).length with
       | some r => some r
       | none => emailDomTry loc afterAt k)
    | _ => emailDomTry loc afterAt k

def emailMatchAt (s : List Char) (prev : Option Char) : Option (String × List Char × Option Char) :=
  match s with
  | [] => none
  | c :: _ =>
    if boundaryBefore prev c then
      let loc := s.takeWhile isLocalChar
      if loc.isEmpty then none
      else
        match s.drop loc.length with
        | '@' :: afterAt => emailDomTry loc afterAt (afterAt.takeWhile isDomChar).length
        | _ => none
    else none

def emailFindAll (s : String) : List String :=
  scanAll emailMatchAt (s.data.length + 1) none s.data

def emailFindFirst (s : String) : Option String := (emailFindAll s).head?

/-- The domain-and-TLD part of the strict anchored pattern, consuming the
whole remaining input: some split into `[A-Za-z0-9.-]+` of length `k`, a
literal `.`, and `[A-Z|a-z]{2,}` to the end. -/
def strictDomLoop (afterAt : List Char) : Nat → Bool
  | 0 => false
  | Nat.succ k =>
    (match afterAt.drop (Nat.succ k) with
     | '.' :: t => decide (2 ≤ t.length) && t.all isTldChar
     | _ => false) ||
      strictDomLoop afterAt k

def strictCore (cs : List Char) : Bool :=
  let loc := cs.takeWhile isLocalChar
  if loc.isEmpty then false
  else
    match cs.drop loc.length with
    | '@' :: afterAt => strictDomLoop afterAt (afterAt.takeWhile isDomChar).length
    | _ => false

/-- `re.match(r'^local@domain$', s)`: anchored at the start; `$` also
matches just before one trailing newline. -/
def strictEmailB (s : String) : Bool :=
  let body :=
    match s.data.getLast? with
    | some c => if c = '\n' then s.data.dropLast else s.data
    | none => s.data
  strictCore body

/-! ## Phone patterns of `ResumeParser.parse_personal_information`

`r'\b(?:\+?1[-.\s]?)?\(?([0-9]{3})\)?[-.\s]?([0-9]{3})[-.\s]?([0-9]{4})\b'`,
`r'\b\d{3}[-.]?\d{3}[-.]?\d{4}\b'`, `r'\b\d{3}[-.]?\d{4}[-.]?\d{4}\b'`. -/

def isDashDotSp (c : Char) : Bool := c == '-' || c == '.' || isPySpaceC c

def isDashDot (c : Char) : Bool := c == '-' || c == '.'

def p1Tail (s : List Char) : Option ((String × String × String) × List Char × Option Char) :=
  tryOptCh (fun c => c == '(') s (fun _ s1 =>
    (takeDigits 3 s1).bind (fun pa =>
      tryOptCh (fun c => c == ')') pa.2 (fun _ s3 =>
        tryOptCh isDashDotSp s3 (fun _ s4 =>
          (takeDigits 3 s4).bind (fun pb =>
            tryOptCh isDashDotSp pb.2 (fun _ s6 =>
              (takeDigits 4 s6).bind (fun pc =>
                if nonWordHead pc.2 then
                  some ((String.mk pa.1, String.mk pb.1, String.mk pc.1), pc.2,
                    some (pc.1.getLastD '0'))
                else none)))))))

def p1MatchAt (s : List Char) (prev : Option Char) :
    Option ((String × String × String) × List Char × Option Char) :=
  match s with
  | [] => none
  | c :: _ =>
    if boundaryBefore prev c then
      orO
        (tryOptCh (fun ch => ch == '+') s (fun _ s1 =>
          match s1 with
          | '1' :: s2 => tryOptCh isDashDotSp s2 (fun _ s3 => p1Tail s3)
          | _ => none))
        (p1Tail s)
    else none

def p1FindFirst (s : String) : Option (String × String × String) :=
  (scanAll p1MatchAt (s.data.length + 1) none s.data).head?

def p2MatchAt (s : List Char) (prev : Option Char) : Option (String × List Char × Option Char) :=
  match s with
  | [] => none
  | c :: _ =>
    if boundaryBefore prev c then
      (takeDigits 3 s).bind (fun pa =>
        tryOptCh isDashDot pa.2 (fun sep1 s2 =>
          (takeDigits 3 s2).bind (fun pb =>
            tryOptCh isDashDot pb.2 (fun sep2 s4 =>
              (takeDigits 4 s4).bind (fun pc =>
                if nonWordHead pc.2 then
                  some (String.mk (pa.1 ++ sep1 ++ pb.1 ++ sep2 ++ pc.1), pc.2,
                    some (pc.1.getLastD '0'))
                else none)))))
    else none

def p2FindFirst (s : String) : Option String :=
  (scanAll p2MatchAt (s.data.length + 1) none s.data).head?

def p3MatchAt (s : List Char) (prev : Option Char) : Option (String × List Char × Option Char) :=
  match s with
  | [] => none
  | c :: _ =>
    if boundaryBefore prev c then
      (takeDigits 3 s).bind (fun pa =>
        tryOptCh isDashDot pa.2 (fun sep1 s2 =>
          (takeDigits 4 s2).bind (fun pb =>
            tryOptCh isDashDot pb.2 (fun sep2 s4 =>
              (takeDigits 4 s4).bind (fun pc =>
                if nonWordHead pc.2 then
                  some (String.mk (pa.1 ++ sep1 ++ pb.1 ++ sep2 ++ pc.1), pc.2,
                    some (pc.1.getLastD '0'))
                else none)))))
    else none

def p3FindFirst (s : String) : Option String :=
  (scanAll p3MatchAt (s.data.length + 1) none s.data).head?

/-- The name loop's phone test `re.search(r'\d{3}[-.]?\d{3}[-.]?\d{4}', line)`
(no word boundaries). -/
def namePhoneAt (s : List Char) (_ : Option Char) : Option (Unit × List Char × Option Char) :=
  (takeDigits 3 s).bind (fun pa =>
    tryOptCh isDashDot pa.2 (fun _ s2 =>
      (takeDigits 3 s2).bind (fun pb =>
        tryOptCh isDashDot pb.2 (fun _ s4 =>
          (takeDigits 4 s4).map (fun pc => ((), pc.2, some (pc.1.getLastD '0')))))))

def namePhoneSearch (s : String) : Bool :=
  !(scanAll namePhoneAt (s.data.length + 1) none s.data).isEmpty

/-! ## Date and year patterns -/

/-- `(20\d{2}|19\d{2})`. -/
def yearTake : List Char → Option (List Char × List Char)
  | a :: b :: c :: d :: rest =>
    if ((a == '2' && b == '0') || (a == '1' && b == '9')) && c.isDigit && d.isDigit then
      some ([a, b, c, d], rest)
    else none
  | _ => none

/-- `re.search(r'\b(20\d{2}|19\d{2})\b', line).group()`. -/
def yearMatchAt (s : List Char) (prev : Option Char) : Option (String × List Char × Option Char) :=
  match s with
  | [] => none
  | c :: _ =>
    if boundaryBefore prev c then
      (yearTake s).bind (fun y =>
        if nonWordHead y.2 then some (String.mk y.1, y.2, some (y.1.getLastD '0')) else none)
    else none

def yearFind (line : String) : Option String :=
  (scanAll yearMatchAt (line.data.length + 1) none line.data).head?

/-- `re.search(r'\b(20\d{2}|19\d{2})\s*[-–]\s*(20\d{2}|19\d{2}|present)\b',
line, re.IGNORECASE).group()` from `ResumeParser.parse_experience`. -/
def expDateMatchAt (s : List Char) (prev : Option Char) : Option (String × List Char × Option Char) :=
  match s with
  | [] => none
  | c :: _ =>
    if boundaryBefore prev c then
      (yearTake s).bind (fun y1 =>
        let sp1 := y1.2.takeWhile isPySpaceC
        match y1.2.drop sp1.length with
        | d :: r2 =>
          if d == '-' || d == '–' then
            let sp2 := r2.takeWhile isPySpaceC
            let r3 := r2.drop sp2.length
            (match yearTake r3 with
             | some y2 =>
               if nonWordHead y2.2 then
                 some (String.mk (y1.1 ++ sp1 ++ d :: (sp2 ++ y2.1)), y2.2,
                   some (y2.1.getLastD '0'))
               else none
             | none =>
               match ciStarts ['p', 'r', 'e', 's', 'e', 'n', 't'] r3 with
               | some pr =>
                 if nonWordHead pr.2 then
                   some (String.mk (y1.1 ++ sp1 ++ d :: (sp2 ++ pr.1)), pr.2,
                     some (pr.1.getLastD 't'))
                 else none
               | none => none)
          else none
        | [] => none)
    else none

def expDateSearch (line : String) : Option String :=
  (scanAll expDateMatchAt (line.data.length + 1) none line.data).head?

/-! ## Address, LinkedIn and website patterns -/

def isUpperAZ (c : Char) : Bool := 'A' ≤ c && c ≤ 'Z'

def isLowerAZ (c : Char) : Bool := 'a' ≤ c && c ≤ 'z'

def isAsciiLetter (c : Char) : Bool := isUpperAZ c || isLowerAZ c

/-- `re.search(r'\b[A-Z][a-z]+,\s*[A-Z]{2}\s+\d{5}', line)` as a Boolean. -/
def cityStateAt (s : List Char) (prev : Option Char) : Option (Unit × List Char × Option Char) :=
  match s with
  | [] => none
  | c :: t =>
    if boundaryBefore prev c && isUpperAZ c then
      let low := t.takeWhile isLowerAZ
      if low.isEmpty then none
      else
        match t.drop low.length with
        | ',' :: r1 =>
          let sp := r1.takeWhile isPySpaceC
          (match r1.drop sp.length with
           | u1 :: u2 :: r2 =>
             if isUpperAZ u1 && isUpperAZ u2 then
               let sp2 := r2.takeWhile isPySpaceC
               if sp2.isEmpty then none
               else (takeDigits 5 (r2.drop sp2.length)).map (fun p => ((), p.2, some '0'))
             else none
           | _ => none)
        | _ => none
    else none

def cityStateSearch (line : String) : Bool :=
  !(scanAll cityStateAt (line.data.length + 1) none line.data).isEmpty

def isWDashChar (c : Char) : Bool := isWordChar c || c == '-'

/-- `re.search(r'linkedin\.com/in/[\w\-]+', text, re.IGNORECASE).group()`. -/
def linkedinAt (s : List Char) (_ : Option Char) : Option (String × List Char × Option Char) :=
  (ciStarts ("linkedin.com/in/").data s).bind (fun p =>
    let run := p.2.takeWhile isWDashChar
    if run.isEmpty then none
    else some (String.mk (p.1 ++ run), p.2.drop run.length, some (run.getLastD '0')))

def linkedinFind (s : String) : Option String :=
  (scanAll linkedinAt (s.data.length + 1) none s.data).head?

def isUrlChar (c : Char) : Bool := isWordChar c || c == '.' || c == '-'

/-- Backtrack on the greedy `[\w\.\-]+` before `\.[a-z]{2,}` (with
`re.IGNORECASE`, so TLD letters of either case). -/
def webDomTry (pfx : List Char) (base : List Char) : Nat → Option (String × List Char × Option Char)
  | 0 => none
  | Nat.succ k =>
    match base.drop (Nat.succ k) with
    | '.' :: t =>
      let tld := t.takeWhile isAsciiLetter
      if 2 ≤ tld.length then
        some (String.mk (pfx ++ base.take (Nat.succ k) ++ '.' :: tld), t.drop tld.length,
          some (tld.getLastD 'a'))
      else webDomTry pfx base k
    | _ => webDomTry pfx base k

/-- `re.findall(r'https?://[\w\.\-]+\.[a-z]{2,}', text, re.IGNORECASE)`. -/
def websiteAt (s : List Char) (_ : Option Char) : Option (String × List Char × Option Char) :=
  (ciStarts ("http").data s).bind (fun ph =>
    tryOptCh (fun c => c.toLower == 's') ph.2 (fun sCons s1 =>
      (ciStarts ("://").data s1).bind (fun pc =>
        webDomTry (ph.1 ++ sCons ++ pc.1) pc.2 (pc.2.takeWhile isUrlChar).length)))

def websiteFindAll (s : String) : List String :=
  scanAll websiteAt (s.data.length + 1) none s.data

/-! ## The record types

`ResumeParser.parsed_data` is a dict with fixed top-level keys; `personal`
is a dict whose keys are set at most once, modelled with `Option String`
fields (absence = key not present). -/

structure Personal where
  email : Option String := none
  phone : Option String := none
  full_name : Option String := none
  first_name : Option String := none
  last_name : Option String := none
  address : Option String := none
  linkedin : Option String := none
  website : Option String := none
deriving DecidableEq, Repr

structure Job where
  title : String := ""
  company : String := ""
  dates : String := ""
  description : String := ""
deriving DecidableEq, Repr

structure EduEntry where
  school : String := ""
  degree : String := ""
  year : String := ""
deriving DecidableEq, Repr

structure Project where
  name : String := ""
  description : String := ""
  technologies : List String := []
deriving DecidableEq, Repr

structure LangEntry where
  language : String := ""
  proficiency : String := ""
deriving DecidableEq, Repr

structure CertEntry where
  name : String := ""
  issuer : String := ""
  year : String := ""
deriving DecidableEq, Repr

structure ResumeRecord where
  personal : Personal := {}
  summary : String := ""
  experience : List Job := []
  education : List EduEntry := []
  skills : List String := []
  technical_skills : List String := []
  projects : List Project := []
  languages : List LangEntry := []
  certifications : List CertEntry := []
deriving DecidableEq, Repr

/-- The freshly initialised `parsed_data` of `ResumeParser.__init__`. -/
def emptyRecord : ResumeRecord := {}

/-- Insertion-ordered set add: the deterministic model of Python
`set.add` prescribed by the spec for the skills sets. -/
def osAdd (xs : List String) (x : String) : List String :=
  if x ∈ xs then xs else xs ++ [x]

namespace ResumeParser

/-! ## Text acquisition (`extract_text_from_pdf`, `extract_text_with_ocr`)

Per-page results are `Option String` (`none` = that page's extraction or
OCR raised and was caught); `openOk = false` models `open`/`PdfReader`
raising, `ocrOk = false` models `convert_from_path` (or the OCR backend)
raising. -/

/-- Pages whose text survives and has non-blank content, joined with
newlines; an unopenable PDF yields the empty string. -/
def extract_text_from_pdf (openOk : Bool) (pages : List (Option String)) : String :=
  if openOk then
    String.intercalate "\n" ((pages.filterMap id).filter (fun t => pyStrip t ≠ ""))
  else ""

/-- OCR fallback: overwrites the current text only when some OCR page
produced non-blank text; a raising backend leaves the text unchanged. -/
def extract_text_with_ocr (ocrOk : Bool) (ocrPages : List (Option String)) (current : String) : String :=
  if ocrOk then
    let parts := (ocrPages.filterMap id).filter (fun t => pyStrip t ≠ "")
    if parts ≠ [] then String.intercalate "\n" parts else current
  else current

structure Acquired where
  text : String
  usedOCR : Bool
deriving DecidableEq, Repr

/-- Steps 1-2 of `ResumeParser.parse`: direct extraction, then OCR iff the
stripped text has fewer than 100 characters. -/
def acquireText (openOk : Bool) (pages : List (Option String)) (ocrOk : Bool)
    (ocrPages : List (Option String)) : Acquired :=
  let direct := extract_text_from_pdf openOk pages
  if (pyStrip direct).length < 100 then
    { text := extract_text_with_ocr ocrOk ocrPages direct, usedOCR := true }
  else { text := direct, usedOCR := false }

/-! ## `parse_personal_information` -/

def address_keywords : List String :=
  ["street", "ave", "avenue", "road", "rd", "drive", "dr", "lane", "ln", "blvd", "boulevard"]

/-- One step of the phone-pattern priority loop: first pattern with a match
wins; a tuple match is formatted `(aaa) bbb-cccc`. -/
def phoneExtract (text : String) : Option String :=
  match p1FindFirst text with
  | some g => some ("(" ++ g.1 ++ ") " ++ g.2.1 ++ "-" ++ g.2.2)
  | none =>
    match p2FindFirst text with
    | some m => some m
    | none => p3FindFirst text

/-- The name loop body's filter: no email match, no phone-shaped substring,
at least 2 whitespace tokens, under 50 characters. -/
def nameQualifies (l : String) : Bool :=
  !(emailFindFirst l).isSome && !namePhoneSearch l &&
    (decide (2 ≤ (pySplitWs l).length) && decide (l.length < 50))

/-- `for line in lines[:5]`: the first line passing the email/phone filter
and the token/length test wins and the loop breaks; the caller passes
`lines.take 5`. -/
def nameFind : List String → Option (String × String × String)
  | [] => none
  | l :: ls =>
    if (emailFindFirst l).isSome || namePhoneSearch l then nameFind ls
    else if 2 ≤ (pySplitWs l).length ∧ l.length < 50 then
      some (l, (pySplitWs l).headD "", (pySplitWs l).getLastD "")
    else nameFind ls

/-- First line containing a street keyword or matching the
`City, ST 12345` pattern. -/
def addrFind : List String → Option String
  | [] => none
  | l :: ls =>
    if anyKw (pyLower l) address_keywords then some l
    else if cityStateSearch l then some l
    else addrFind ls

def parse_personal_information (text : String) : Personal :=
  let lines := pyLines text
  let nameO := nameFind (lines.take 5)
  { email := emailFindFirst text
    phone := phoneExtract text
    full_name := nameO.map (fun n => n.1)
    first_name := nameO.map (fun n => n.2.1)
    last_name := nameO.map (fun n => n.2.2)
    address := addrFind lines
    linkedin := (linkedinFind text).map (fun m => "https://" ++ m)
    website := ((websiteFindAll text).filter (fun u => !(strHasSub (pyLower u) "linkedin"))).head? }

/-! ## `parse_experience` -/

def exp_start_keywords : List String := ["experience", "employment", "work history"]

def exp_stop_keywords : List String := ["education", "skills", "projects"]

def job_title_words : List String :=
  ["manager", "director", "engineer", "developer", "analyst", "coordinator", "assistant",
    "specialist"]

def company_indicators : List String := ["inc", "corp", "llc", "company", "ltd"]

def newJob (l : String) : Job :=
  { title := pyStrip l, company := "", dates := (expDateSearch l).getD "", description := "" }

/-- State returned by the scan over the remaining lines: jobs appended
during the loop, the current job at loop exit, the section flag at exit and
whether the loop ended with `break`.  On `break` the current job is
appended once inside the loop; the caller appends it once more, exactly as
the source does after the loop. -/
structure ExpState where
  emitted : List Job
  cur : Option Job
  sec : Bool
  broke : Bool
deriving DecidableEq, Repr

def expLoop : Bool → Option Job → List String → ExpState
  | sec, cur, [] => ⟨[], cur, sec, false⟩
  | sec, cur, l :: ls =>
    let ll := pyLower l
    if anyKw ll exp_start_keywords then expLoop true cur ls
    else if sec && anyKw ll exp_stop_keywords then ⟨cur.toList, cur, sec, true⟩
    else if sec && anyWordSearch job_title_words ll then
      let r := expLoop sec (some (newJob l)) ls
      ⟨cur.toList ++ r.emitted, r.cur, r.sec, r.broke⟩
    else if sec then
      match cur with
      | some j =>
        if j.company == "" && anyKw ll company_indicators then
          expLoop sec (some { j with company := pyStrip l }) ls
        else expLoop sec cur ls
      | none => expLoop sec cur ls
    else expLoop sec cur ls

def parse_experience (text : String) : List Job :=
  let r := expLoop false none (pyLines text)
  (r.emitted ++ r.cur.toList).take 5

/-! ## `parse_education` -/

def edu_trigger_keywords : List String := ["education", "academic"]

def edu_stop_keywords : List String := ["experience", "skills", "projects", "work"]

def work_indicators : List String :=
  ["instructor", "teacher", "manager", "director", "engineer", "developer"]

def institution_keywords : List String := ["university", "college", "institute"]

def degree_keywords : List String :=
  ["bachelor", "master", "phd", "mba", "bs", "ba", "ms", "ma", "degree"]

def mkEduEntry (l : String) : EduEntry :=
  let ll := pyLower l
  { school := pyStrip l
    degree := if anyKw ll degree_keywords then pyStrip l else ""
    year := (yearFind l).getD "" }

def eduLoop : Bool → List String → List EduEntry
  | _, [] => []
  | sec, l :: ls =>
    let ll := pyLower l
    if anyKw ll edu_trigger_keywords then eduLoop true ls
    else if sec && anyKw ll edu_stop_keywords then []
    else if sec || anyKw ll ["university", "college"] then
      if anyKw ll work_indicators then eduLoop sec ls
      else if anyKw ll institution_keywords && !anyKw ll work_indicators then
        mkEduEntry l :: eduLoop sec ls
      else eduLoop sec ls
    else eduLoop sec ls

def parse_education (text : String) : List EduEntry :=
  (eduLoop false (pyLines text)).take 3

/-! ## `parse_skills` -/

def tech_skills_list : List String :=
  ["python", "javascript", "java", "c++", "c#", "php", "ruby", "go", "rust", "swift",
    "react", "vue", "angular", "node", "express", "django", "flask", "rails",
    "html", "css", "sass", "less", "bootstrap", "tailwind",
    "sql", "postgresql", "mysql", "mongodb", "redis", "elasticsearch",
    "aws", "azure", "gcp", "docker", "kubernetes", "jenkins", "git", "github",
    "tensorflow", "pytorch", "pandas", "numpy", "scikit-learn", "matplotlib",
    "linux", "windows", "macos", "unix", "bash", "powershell"]

def soft_skills_list : List String :=
  ["leadership", "communication", "teamwork", "problem solving", "analytical",
    "creative", "adaptable", "organized", "detail-oriented", "time management",
    "project management", "customer service", "presentation", "negotiation"]

def skills_trigger_keywords : List String :=
  ["skills", "technologies", "tools", "technical skills"]

def skills_stop_keywords : List String := ["experience", "education", "projects", "languages"]

def isSkillDelim (c : Char) : Bool :=
  c == ',' || c == '•' || c == '·' || c == '-' || c == '\n' || c == '|' || c == '/'

/-- `re.split(r'[,•·\-\n|/]', line)`. -/
def splitDelims (s : String) : List String :=
  (splitChars isSkillDelim s.data).map String.mk

/-- Process the tokens of one line inside the skills section: a stripped
token of length in (2, 25) joins the skills set; it also joins the
technical set inside a technical subsection or when it contains a known
technology name. -/
def tokensFold (acc : List String × List String) (techSec : Bool) (l : String) :
    List String × List String :=
  (splitDelims l).foldl
    (fun a w0 =>
      let w := pyStrip w0
      if 2 < w.length ∧ w.length < 25 then
        (osAdd a.1 w,
          if techSec || tech_skills_list.any (fun t => strHasSub (pyLower w) t) then osAdd a.2 w
          else a.2)
      else a)
    acc

def skLoop : Bool → Bool → List String × List String → List String → List String × List String
  | _, _, acc, [] => acc
  | sec, techSec, acc, l :: ls =>
    let ll := pyLower l
    if anyKw ll skills_trigger_keywords then
      skLoop true (techSec || strHasSub ll "technical") acc ls
    else if sec && anyKw ll skills_stop_keywords then skLoop false false acc ls
    else if sec then skLoop sec techSec (tokensFold acc techSec l) ls
    else skLoop sec techSec acc ls

def parse_skills (text : String) : List String × List String :=
  let tl := pyLower text
  let p0 :=
    tech_skills_list.foldl
      (fun (pr : List String × List String) sk =>
        if strHasSub tl sk then (osAdd pr.1 (pyTitle sk), osAdd pr.2 (pyTitle sk)) else pr)
      ([], [])
  let p1 :=
    soft_skills_list.foldl
      (fun (al : List String) sk => if strHasSub tl sk then osAdd al (pyTitle sk) else al)
      p0.1
  let p2 := skLoop false false (p1, p0.2) (pyLines text)
  (p2.1.take 25, p2.2.take 15)

/-! ## `parse_summary` -/

def summary_trigger_keywords : List String := ["summary", "objective", "profile", "about"]

def summary_stop_keywords : List String := ["experience", "education", "skills", "employment"]

def sumLoop : Bool → List String → List String
  | _, [] => []
  | sec, l :: ls =>
    let ll := pyLower l
    if anyKw ll summary_trigger_keywords then sumLoop true ls
    else if sec && anyKw ll summary_stop_keywords then []
    else if sec && 20 < l.length then l :: sumLoop sec ls
    else sumLoop sec ls

def parse_summary (text : String) : String :=
  let sl := sumLoop false (pyLines text)
  if sl ≠ [] then String.intercalate " " (sl.take 3) else ""

/-! ## `parse_projects` -/

def startsDash (l : String) : Bool :=
  match l.data with
  | '-' :: _ => true
  | _ => false

def startsBullet (l : String) : Bool :=
  match l.data with
  | '•' :: _ => true
  | _ => false

/-- Like `ExpState`: emitted projects, current project, broke flag; the
current project is appended inside the loop on `break` and once more by the
caller, as in the source. -/
def projLoop : Bool → Option Project → List String → List Project × Option Project × Bool
  | _, cur, [] => ([], cur, false)
  | sec, cur, l :: ls =>
    let ll := pyLower l
    if anyKw ll ["projects", "portfolio"] then projLoop true cur ls
    else if sec && anyKw ll ["experience", "education", "skills"] then (cur.toList, cur, true)
    else if sec then
      if l ≠ "" && !startsDash l && !startsBullet l then
        let r := projLoop sec (some { name := pyStrip l, description := "", technologies := [] }) ls
        (cur.toList ++ r.1, r.2)
      else
        match cur with
        | some p =>
          if (startsDash l || startsBullet l) && p.description == "" then
            projLoop sec (some { p with description := pyStrip l }) ls
          else projLoop sec cur ls
        | none => projLoop sec cur ls
    else projLoop sec cur ls

def parse_projects (text : String) : List Project :=
  let r := projLoop false none (pyLines text)
  (r.1 ++ r.2.1.toList).take 5

/-! ## `parse_languages` -/

def language_list : List String :=
  ["english", "spanish", "french", "german", "italian", "portuguese", "chinese",
    "japanese", "korean", "arabic", "russian", "hindi", "mandarin", "cantonese"]

def langLoop : Bool → List String → List LangEntry
  | _, [] => []
  | sec, l :: ls =>
    let ll := pyLower l
    if anyKw ll ["languages", "language"] then langLoop true ls
    else if sec && anyKw ll ["experience", "education", "skills", "projects"] then []
    else if sec then
      (language_list.filterMap (fun lang =>
        if strHasSub ll lang then
          some
            { language := pyTitle lang
              proficiency :=
                if anyKw ll ["native", "fluent"] then "fluent"
                else if anyKw ll ["basic", "beginner"] then "basic"
                else "conversational" }
        else none)) ++ langLoop sec ls
    else langLoop sec ls

def parse_languages (text : String) : List LangEntry :=
  langLoop false (pyLines text)

/-! ## `parse_certifications` -/

def certLoop : Bool → List String → List CertEntry
  | _, [] => []
  | sec, l :: ls =>
    let ll := pyLower l
    if anyKw ll ["certifications", "certificates", "licenses"] then certLoop true ls
    else if sec && anyKw ll ["experience", "education", "skills", "projects"] then []
    else if (sec || anyKw ll ["certified", "certificate", "license"]) &&
        (l ≠ "" && 5 < l.length) then
      { name := pyStrip l, issuer := "", year := (yearFind l).getD "" } :: certLoop sec ls
    else certLoop sec ls

def parse_certifications (text : String) : List CertEntry :=
  (certLoop false (pyLines text)).take 5

/-! ## `clean_and_validate_data` -/

/-- `re.sub(r'[^\d\+\-\(\)\s]', '', phone).strip()`. -/
def clean_phone (p : String) : String :=
  pyStrip (String.mk (p.data.filter
    (fun c => c.isDigit || c == '+' || c == '-' || c == '(' || c == ')' || isPySpaceC c)))

def clean_personal (p : Personal) : Personal :=
  { p with
    email :=
      match p.email with
      | some e => if strictEmailB e then some e else none
      | none => none
    phone := p.phone.map clean_phone }

def clean_experience (ex : List Job) : List Job :=
  ex.filter (fun j => j.title ≠ "" || j.company ≠ "")

/-! ## `parse` (step 3 onward, on acquired text) -/

/-- Steps 3 of `ResumeParser.parse`: run every extractor and the cleaner
when the stripped text is non-empty, otherwise return the untouched
initial record. -/
def parseText (text : String) : ResumeRecord :=
  if pyStrip text ≠ "" then
    let sk := parse_skills text
    { personal := clean_personal (parse_personal_information text)
      summary := parse_summary text
      experience := clean_experience (parse_experience text)
      education := parse_education text
      skills := sk.1
      technical_skills := sk.2
      projects := parse_projects text
      languages := parse_languages text
      certifications := parse_certifications text }
  else emptyRecord

/-- The whole of `ResumeParser.parse`: acquisition with OCR fallback, then
structured parsing. -/
def parsePipeline (openOk : Bool) (pages : List (Option String)) (ocrOk : Bool)
    (ocrPages : List (Option String)) : ResumeRecord :=
  parseText (acquireText openOk pages ocrOk ocrPages).text

end ResumeParser

/-! ## `EnhancedResumeParser` (enhanced_backend_server.py) -/

/-- A group match of `extract_dates_from_string`: patterns with two groups
yield tuples from `re.findall`, the bare-year pattern yields strings. -/
inductive DateTok where
  | pair (a b : String)
  | single (y : String)
deriving DecidableEq, Repr

def quoteCh : String := String.mk [Char.ofNat 39]

/-- Python `str(...)` on a findall element: a tuple prints as
`('a', 'b')`, a string as itself. -/
def pyStrTok : DateTok → String
  | DateTok.pair a b =>
    "(" ++ quoteCh ++ a ++ quoteCh ++ ", " ++ quoteCh ++ b ++ quoteCh ++ ")"
  | DateTok.single y => y

namespace EnhancedResumeParser

/-- `extracted_text += page_text + "\n"` for every page whose
`extract_text()` result is truthy (non-empty). -/
def extractDirect (pages : List String) : String :=
  String.join ((pages.filter (fun p => p ≠ "")).map (fun p => p ++ "\n"))

structure EAcquired where
  text : String
  usedOCR : Bool
deriving DecidableEq, Repr

/-- `EnhancedResumeParser.extract_text_from_pdf`: keep the direct text only
when its stripped length is strictly greater than 100, otherwise (and on an
extraction exception) fall back to OCR, whose outcome is abstracted as
`ocrResult` (the `text_content` left behind by `extract_text_with_ocr`). -/
def extract_text_from_pdf (openOk : Bool) (pages : List String) (ocrResult : String) : EAcquired :=
  if openOk then
    let direct := extractDirect pages
    if 100 < (pyStrip direct).length then { text := direct, usedOCR := false }
    else { text := ocrResult, usedOCR := true }
  else { text := ocrResult, usedOCR := true }

/-- `EnhancedResumeParser.extract_text_with_ocr`: a missing `pdf2image`
backend or a raising conversion/OCR loop degrades to a fixed error string,
never an exception. -/
def extract_text_with_ocr (pdf2imageAvailable : Bool) (ocrRaised : Bool)
    (ocrPages : List String) : String :=
  if !pdf2imageAvailable then
    "Error: pdf2image is not available. Cannot perform OCR extraction."
  else if ocrRaised then "Error: Could not extract text from PDF"
  else String.join ((ocrPages.filter (fun p => p ≠ "")).map (fun p => p ++ "\n"))

/-! ### `parse_education` (enhanced variant) -/

def work_indicators : List String :=
  ["instructor", "teacher", "manager", "director", "engineer", "developer",
    "analyst", "coordinator", "assistant", "specialist", "representative",
    "consultant", "administrator"]

def mkEduEntry (l : String) : EduEntry :=
  let ll := pyLower l
  { school := pyStrip l
    degree := if anyKw ll ResumeParser.degree_keywords then pyStrip l else ""
    year := (yearFind l).getD "" }

def eduLoop : Bool → List String → List EduEntry
  | _, [] => []
  | sec, l :: ls =>
    let ll := pyLower l
    if anyKw ll ["education", "academic"] then eduLoop true ls
    else if sec && anyKw ll ["experience", "skills", "projects", "work"] then []
    else if sec || anyKw ll ["university", "college"] then
      if anyKw ll work_indicators then eduLoop sec ls
      else if anyKw ll ["university", "college", "institute"] && !anyKw ll work_indicators then
        mkEduEntry l :: eduLoop sec ls
      else eduLoop sec ls
    else eduLoop sec ls

def parse_education (text : String) : List EduEntry :=
  (eduLoop false (pyLines text)).take 3

/-! ### `extract_dates_from_string`

Patterns, tried in order with `re.findall` and concatenated:
`r'\b(Jan|Feb|Mar|Apr|May|Jun|Jul|Aug|Sep|Oct|Nov|Dec)\s+(20\d{2}|19\d{2})\b'`,
`r'\b(20\d{2}|19\d{2})\s*-\s*(20\d{2}|19\d{2})\b'`,
`r'\b(20\d{2}|19\d{2})\b'`, all with `re.IGNORECASE`. -/

def monthsL : List (List Char) :=
  [['j', 'a', 'n'], ['f', 'e', 'b'], ['m', 'a', 'r'], ['a', 'p', 'r'],
   ['m', 'a', 'y'], ['j', 'u', 'n'], ['j', 'u', 'l'], ['a', 'u', 'g'],
   ['s', 'e', 'p'], ['o', 'c', 't'], ['n', 'o', 'v'], ['d', 'e', 'c']]

def e1TryMonths (s : List Char) : List (List Char) → Option (DateTok × List Char × Option Char)
  | [] => none
  | m :: ms =>
    match ciStarts m s with
    | some pm =>
      let sp := pm.2.takeWhile isPySpaceC
      if sp.isEmpty then e1TryMonths s ms
      else
        (match yearTake (pm.2.drop sp.length) with
         | some y =>
           if nonWordHead y.2 then
             some (DateTok.pair (String.mk pm.1) (String.mk y.1), y.2, some (y.1.getLastD '0'))
           else e1TryMonths s ms
         | none => e1TryMonths s ms)
    | none => e1TryMonths s ms

def e1MatchAt (s : List Char) (prev : Option Char) : Option (DateTok × List Char × Option Char) :=
  match s with
  | [] => none
  | c :: _ => if boundaryBefore prev c then e1TryMonths s monthsL else none

def e2MatchAt (s : List Char) (prev : Option Char) : Option (DateTok × List Char × Option Char) :=
  match s with
  | [] => none
  | c :: _ =>
    if boundaryBefore prev c then
      (yearTake s).bind (fun y1 =>
        let sp1 := y1.2.takeWhile isPySpaceC
        match y1.2.drop sp1.length with
        | '-' :: r2 =>
          let sp2 := r2.takeWhile isPySpaceC
          (yearTake (r2.drop sp2.length)).bind (fun y2 =>
            if nonWordHead y2.2 then
              some (DateTok.pair (String.mk y1.1) (String.mk y2.1), y2.2,
                some (y2.1.getLastD '0'))
            else none)
        | _ => none)
    else none

def e3MatchAt (s : List Char) (prev : Option Char) : Option (DateTok × List Char × Option Char) :=
  match s with
  | [] => none
  | c :: _ =>
    if boundaryBefore prev c then
      (yearTake s).bind (fun y =>
        if nonWordHead y.2 then
          some (DateTok.single (String.mk y.1), y.2, some (y.1.getLastD '0'))
        else none)
    else none

/-- `dates_found`: the three findall results concatenated in pattern
order. -/
def datesFound (line : String) : List DateTok :=
  scanAll e1MatchAt (line.data.length + 1) none line.data ++
    scanAll e2MatchAt (line.data.length + 1) none line.data ++
      scanAll e3MatchAt (line.data.length + 1) none line.data

/-- The record fields `extract_dates_from_string` can set. -/
structure DatedRec where
  start_date : Option String := none
  end_date : Option String := none
deriving DecidableEq, Repr

def extract_dates_from_string (line : String) (record : DatedRec) : DatedRec × List DateTok :=
  let found := datesFound line
  match found with
  | t1 :: t2 :: _ => ({ start_date := some (pyStrTok t1), end_date := some (pyStrTok t2) }, found)
  | [t1] => ({ record with start_date := some (pyStrTok t1) }, found)
  | [] => (record, found)

end EnhancedResumeParser

/-! # Theorems -/

/-! ## Generic helper lemmas -/

theorem length_take_le {α : Type} (n : Nat) (l : List α) : (l.take n).length ≤ n := by
  simp [List.length_take]

/-- C2 helper: the cleaned experience list is a filter of a 5-capped list. -/
theorem clean_exp_len_le (text : String) :
    (ResumeParser.clean_experience (ResumeParser.parse_experience text)).length ≤ 5 := by
  unfold ResumeParser.clean_experience ResumeParser.parse_experience
  exact le_trans (List.length_filter_le _ _) (length_take_le _ _)

/-! ## C1 -/

/-- C1 (amended): in `ResumeParser.parse` the OCR fallback is invoked if
and only if the directly extracted text has, after stripping, fewer than
100 characters; in `EnhancedResumeParser.extract_text_from_pdf` the
fallback is instead invoked iff extraction raised or the stripped text has
at most 100 characters, so at exactly 100 stripped characters the enhanced
variant does attempt OCR. -/
theorem c1_ocr_threshold (openOk : Bool) (pages : List (Option String)) (ocrOk : Bool)
    (ocrPages : List (Option String)) (eok : Bool) (epages : List String) (ocrResult : String) :
    ((ResumeParser.acquireText openOk pages ocrOk ocrPages).usedOCR = true ↔
      (pyStrip (ResumeParser.extract_text_from_pdf openOk pages)).length < 100) ∧
    ((EnhancedResumeParser.extract_text_from_pdf eok epages ocrResult).usedOCR = true ↔
      (eok = false ∨ (pyStrip (EnhancedResumeParser.extractDirect epages)).length ≤ 100)) := by
  constructor
  · unfold ResumeParser.acquireText
    dsimp only
    split <;> simp_all
  · unfold EnhancedResumeParser.extract_text_from_pdf
    cases eok
    · simp
    · dsimp only
      rw [if_pos rfl]
      split
      · rename_i h
        simp
        omega
      · rename_i h
        simp
        omega

/-- C1 (counterexample): a document whose direct extraction yields exactly
100 stripped characters: the claim says OCR must never be attempted at
`>= 100`, but the enhanced variant does attempt it. -/
theorem c1_counterexample :
    (EnhancedResumeParser.extract_text_from_pdf true [String.mk (List.replicate 100 'a')]
        "ocr").usedOCR = true ∧
      ¬ ((pyStrip (EnhancedResumeParser.extractDirect [String.mk (List.replicate 100 'a')])).length <
          100) := by
  constructor
  · decide
  · decide

/-! ## C2 -/

/-- C2: every final record satisfies the cap laws:
`len(experience) <= 5`, `len(education) <= 3`, `len(skills) <= 25`,
`len(technical_skills) <= 15`, `len(projects) <= 5`,
`len(certifications) <= 5`, and they hold after the validator/cleaner has
run (the record below is the cleaned one `parse` returns). -/
theorem c2_cap_laws (text : String) :
    (ResumeParser.parseText text).experience.length ≤ 5 ∧
    (ResumeParser.parseText text).education.length ≤ 3 ∧
    (ResumeParser.parseText text).skills.length ≤ 25 ∧
    (ResumeParser.parseText text).technical_skills.length ≤ 15 ∧
    (ResumeParser.parseText text).projects.length ≤ 5 ∧
    (ResumeParser.parseText text).certifications.length ≤ 5 := by
  unfold ResumeParser.parseText
  split
  · refine ⟨clean_exp_len_le text, ?_, ?_, ?_, ?_, ?_⟩ <;>
      simp [ResumeParser.parse_education, ResumeParser.parse_skills,
        ResumeParser.parse_projects, ResumeParser.parse_certifications, List.length_take]
  · simp [emptyRecord]

/-! ## C9 -/

/-- C9: acquisition failure tolerance: a raising page is skipped without
failing the document (removing it from the page list changes nothing), an
unopenable PDF degrades to empty text, a missing OCR backend leaves the
text unchanged, a raising OCR page is skipped, and when every stage fails
`parse` still returns the empty default record. -/
theorem c9_failure_tolerance (xs ys dp op : List (Option String)) (cur : String) :
    (ResumeParser.extract_text_from_pdf true (xs ++ none :: ys) =
      ResumeParser.extract_text_from_pdf true (xs ++ ys)) ∧
    (ResumeParser.extract_text_from_pdf false dp = "") ∧
    (ResumeParser.extract_text_with_ocr false op cur = cur) ∧
    (ResumeParser.extract_text_with_ocr true (xs ++ none :: ys) cur =
      ResumeParser.extract_text_with_ocr true (xs ++ ys) cur) ∧
    (ResumeParser.parsePipeline false dp false op = emptyRecord) := by
  refine ⟨?_, ?_, ?_, ?_, ?_⟩
  · simp [ResumeParser.extract_text_from_pdf, List.filterMap_append]
  · simp [ResumeParser.extract_text_from_pdf]
  · simp [ResumeParser.extract_text_with_ocr]
  · have h : (List.filterMap id (xs ++ none :: ys) : List String) = List.filterMap id (xs ++ ys) := by
      simp [List.filterMap_append]
    unfold ResumeParser.extract_text_with_ocr
    rw [h]
  · show ResumeParser.parseText _ = _
    have h1 : ResumeParser.acquireText false dp false op =
        { text := "", usedOCR := true } := by
      simp [ResumeParser.acquireText, ResumeParser.extract_text_from_pdf,
        ResumeParser.extract_text_with_ocr]
      decide
    rw [show (ResumeParser.acquireText false dp false op).text = "" from by rw [h1]]
    decide

/-! ## Nonempty-strip ("gate") lemmas

`parse` runs the extractors only when `text_content.strip()` is truthy;
these lemmas let each claim discharge that gate from its own premise. -/

theorem mem_dropWhile_of_mem {c : Char} {p : Char → Bool} {xs : List Char} (h : c ∈ xs)
    (hc : p c = false) : c ∈ xs.dropWhile p := by
  induction xs with
  | nil => cases h
  | cons x xs ih =>
    rw [List.dropWhile_cons]
    rcases List.mem_cons.mp h with rfl | hm
    · simp [hc]
    · split
      · exact ih hm
      · exact List.mem_cons_of_mem _ hm

theorem mem_stripList_of_mem {c : Char} {xs : List Char} (h : c ∈ xs)
    (hc : isPySpaceC c = false) : c ∈ stripList xs := by
  unfold stripList trimRightC trimLeftC
  refine List.mem_reverse.mpr (mem_dropWhile_of_mem (List.mem_reverse.mpr ?_) hc)
  exact mem_dropWhile_of_mem h hc

theorem stripList_ne_nil_of_mem {c : Char} {xs : List Char} (h : c ∈ xs)
    (hc : isPySpaceC c = false) : stripList xs ≠ [] :=
  List.ne_nil_of_mem (mem_stripList_of_mem h hc)

theorem pyStrip_ne_empty_of_mem {c : Char} {s : String} (h : c ∈ s.data)
    (hc : isPySpaceC c = false) : pyStrip s ≠ "" := by
  unfold pyStrip
  intro he
  exact stripList_ne_nil_of_mem h hc (by simpa [String.ext_iff] using he)

theorem splitChars_ne_nil (q : Char → Bool) (xs : List Char) : splitChars q xs ≠ [] := by
  cases xs with
  | nil => simp [splitChars]
  | cons c cs =>
    rw [splitChars]
    split
    · simp
    · split <;> simp_all

theorem mem_of_mem_splitChars {q : Char → Bool} {xs : List Char} {piece : List Char}
    (hp : piece ∈ splitChars q xs) {c : Char} (hc : c ∈ piece) : c ∈ xs := by
  induction xs generalizing piece with
  | nil =>
    simp [splitChars] at hp
    subst hp
    cases hc
  | cons x xs ih =>
    rw [splitChars] at hp
    by_cases hq : q x
    · rw [if_pos hq] at hp
      rcases List.mem_cons.mp hp with rfl | hm
      · cases hc
      · exact List.mem_cons_of_mem _ (ih hm hc)
    · rw [if_neg hq] at hp
      rcases hh : splitChars q xs with _ | ⟨h0, t0⟩
      · exact absurd hh (splitChars_ne_nil q xs)
      · rw [hh] at hp
        rcases List.mem_cons.mp hp with rfl | hm
        · rcases List.mem_cons.mp hc with rfl | hm2
          · exact List.mem_cons_self _ _
          · exact List.mem_cons_of_mem _ (ih (hh ▸ List.mem_cons_self h0 t0) hm2)
        · exact List.mem_cons_of_mem _ (ih (hh ▸ List.mem_cons_of_mem h0 hm) hc)

theorem exists_nonspace_of_stripList_ne_nil {xs : List Char} (h : stripList xs ≠ []) :
    ∃ c ∈ xs, isPySpaceC c = false := by
  by_contra hc
  push_neg at hc
  apply h
  have hall : trimLeftC xs = [] := by
    rw [trimLeftC, List.dropWhile_eq_nil_iff]
    intro x hx
    by_contra hfx
    exact absurd (hc x hx) (by simpa using hfx)
  rw [stripList, hall]
  rfl

/-- The central gate lemma: a non-empty stripped-line list forces a
non-empty stripped text, so `parse` runs the extractors. -/
theorem gate_of_pyLines_ne_nil {t : String} (h : pyLines t ≠ []) : pyStrip t ≠ "" := by
  rcases List.exists_mem_of_ne_nil _ h with ⟨l, hl⟩
  rw [pyLines] at hl
  rcases List.mem_filter.mp hl with ⟨hmap, hne⟩
  rcases List.mem_map.mp hmap with ⟨piece, hpiece, rfl⟩
  have hsl : stripList piece ≠ [] := by
    intro he
    exact (by simpa using hne : ¬ String.mk (stripList piece) = "") (by simp [he])
  rcases exists_nonspace_of_stripList_ne_nil hsl with ⟨c, hcp, hcs⟩
  exact pyStrip_ne_empty_of_mem (mem_of_mem_splitChars hpiece hcp) hcs

theorem isLocalChar_not_space {c : Char} (h : isLocalChar c = true) : isPySpaceC c = false := by
  by_contra hs
  have hs' : isPySpaceC c = true := by simpa using hs
  rw [isPySpaceC] at hs'
  simp only [Bool.or_eq_true, beq_iff_eq] at hs'
  rcases hs' with ((((rfl | rfl) | rfl) | rfl) | rfl) | rfl <;> simp [isLocalChar] at h

theorem scanAll_succ {α : Type} (m : List Char → Option Char → Option (α × List Char × Option Char))
    (fuel : Nat) (prev : Option Char) (s : List Char) :
    scanAll m (Nat.succ fuel) prev s =
      (match m s prev with
       | some (a, rest, lc) => a :: scanAll m fuel lc rest
       | none =>
         match s with
         | [] => []
         | c :: t => scanAll m fuel (some c) t) := rfl

theorem emailMatchAt_head_local {s : List Char} {prev : Option Char}
    {r : String × List Char × Option Char} (h : emailMatchAt s prev = some r) :
    ∃ c ∈ s, isLocalChar c = true := by
  rcases s with _ | ⟨c, t⟩
  · cases h
  · refine ⟨c, List.mem_cons_self _ _, ?_⟩
    by_cases hl : isLocalChar c
    · exact hl
    · exfalso
      have hnone : emailMatchAt (c :: t) prev = none := by
        simp [emailMatchAt, List.takeWhile_cons, hl]
      rw [hnone] at h
      cases h

theorem scanAll_email_exists_local {fuel : Nat} {prev : Option Char} {s : List Char}
    (h : scanAll emailMatchAt fuel prev s ≠ []) : ∃ c ∈ s, isLocalChar c = true := by
  induction fuel generalizing prev s with
  | zero => simp [scanAll] at h
  | succ fuel ih =>
    rw [scanAll_succ] at h
    rcases hm : emailMatchAt s prev with _ | r
    · rw [hm] at h
      rcases s with _ | ⟨c, t⟩
      · simp at h
      · rcases ih (by simpa using h) with ⟨c', hc', hl⟩
        exact ⟨c', List.mem_cons_of_mem _ hc', hl⟩
    · exact emailMatchAt_head_local hm

/-- An extracted email forces a non-empty stripped text. -/
theorem gate_of_email {t : String} {e : String} (h : emailFindFirst t = some e) :
    pyStrip t ≠ "" := by
  have hne : scanAll emailMatchAt (t.data.length + 1) none t.data ≠ [] := by
    intro hnil
    rw [emailFindFirst, emailFindAll, hnil] at h
    cases h
  rcases scanAll_email_exists_local hne with ⟨c, hc, hl⟩
  exact pyStrip_ne_empty_of_mem hc (isLocalChar_not_space hl)

theorem startsWithL_head_eq {a : Char} {as : List Char} {hay : List Char}
    (h : startsWithL (a :: as) hay = true) : ∃ t, hay = a :: t := by
  rcases hay with _ | ⟨b, bs⟩
  · simp [startsWithL] at h
  · rw [startsWithL] at h
    simp only [Bool.and_eq_true, beq_iff_eq] at h
    exact ⟨bs, by rw [h.1]⟩

theorem hasSubL_head_mem {n : Char} {ns : List Char} {hay : List Char}
    (h : hasSubL (n :: ns) hay = true) : n ∈ hay := by
  induction hay with
  | nil => simp [hasSubL, startsWithL] at h
  | cons c t ih =>
    rw [hasSubL] at h
    rcases Bool.or_eq_true_iff.mp h with hs | hs
    · rcases startsWithL_head_eq hs with ⟨t', ht⟩
      rw [ht]
      exact List.mem_cons_self _ _
    · exact List.mem_cons_of_mem _ (ih hs)

/-- A lower-cased text containing the substring `python` forces a
non-empty stripped text. -/
theorem gate_of_python_sub {t : String} (h : strHasSub (pyLower t) "python" = true) :
    pyStrip t ≠ "" := by
  have hp : 'p' ∈ (pyLower t).data := hasSubL_head_mem h
  rcases List.mem_map.mp (by simpa [pyLower] using hp) with ⟨c, hc, hlow⟩
  refine pyStrip_ne_empty_of_mem hc ?_
  by_contra hs
  have hs' : isPySpaceC c = true := by simpa using hs
  rw [isPySpaceC] at hs'
  simp only [Bool.or_eq_true, beq_iff_eq] at hs'
  rcases hs' with ((((rfl | rfl) | rfl) | rfl) | rfl) | rfl <;> simp at hlow

/-! ## C4 -/

/-- C4: whenever the final record's personal mapping has an `email` key,
its value passes the strict anchored email grammar and is exactly the
candidate the discovery pattern extracted (never rewritten or repaired);
consequently a candidate failing strict validation leaves no `email` key
at all. -/
theorem c4_email_strict (text e : String)
    (h : (ResumeParser.parseText text).personal.email = some e) :
    strictEmailB e = true ∧ emailFindFirst text = some e := by
  unfold ResumeParser.parseText at h
  split at h
  · have hp : (ResumeParser.clean_personal (ResumeParser.parse_personal_information text)).email =
        some e := h
    rw [ResumeParser.clean_personal] at hp
    have he : (ResumeParser.parse_personal_information text).email = emailFindFirst text := rfl
    simp only at hp
    rw [he] at hp
    rcases hf : emailFindFirst text with _ | e0 <;> rw [hf] at hp <;> dsimp only at hp
    · cases hp
    · split at hp
      · injection hp with hp2
        subst hp2
        exact ⟨by assumption, rfl⟩
      · cases hp
  · simp [emptyRecord] at h

/-- C4 witness: a concrete text whose final record keeps a strict,
unrepaired email. -/
theorem c4_email_strict_witness :
    strictEmailB "jane.doe@example.com" = true ∧
      emailFindFirst "reach me at jane.doe@example.com ok" = some "jane.doe@example.com" :=
  c4_email_strict "reach me at jane.doe@example.com ok" "jane.doe@example.com" (by decide)

/-! ## C5 -/

/-- C5 (counterexample): a text containing `jane.doe@example.com` whose
final record nevertheless carries a different email, because an earlier
match of the discovery pattern wins. -/
theorem c5_counterexample :
    strHasSub "a@b.co jane.doe@example.com" "jane.doe@example.com" = true ∧
      (ResumeParser.parseText "a@b.co jane.doe@example.com").personal.email ≠
        some "jane.doe@example.com" := by
  constructor
  · decide
  · decide

/-- C5 (amended): for every input text whose *first* match of the email
discovery pattern is `jane.doe@example.com`, the final record has
`personal.email == "jane.doe@example.com"`. -/
theorem c5_email_roundtrip (text : String)
    (h : emailFindFirst text = some "jane.doe@example.com") :
    (ResumeParser.parseText text).personal.email = some "jane.doe@example.com" := by
  unfold ResumeParser.parseText
  rw [if_pos (gate_of_email h)]
  show (ResumeParser.clean_personal (ResumeParser.parse_personal_information text)).email = _
  rw [ResumeParser.clean_personal]
  have he : (ResumeParser.parse_personal_information text).email = emailFindFirst text := rfl
  simp only
  rw [he, h]
  dsimp only
  decide

/-- C5 witness: the amended premise is satisfiable. -/
theorem c5_email_roundtrip_witness :
    (ResumeParser.parseText "hello jane.doe@example.com").personal.email =
      some "jane.doe@example.com" :=
  c5_email_roundtrip "hello jane.doe@example.com" (by decide)

/-! ## C6 -/

theorem nameFind_cons (l : String) (ls : List String) :
    ResumeParser.nameFind (l :: ls) =
      (if (emailFindFirst l).isSome || namePhoneSearch l then ResumeParser.nameFind ls
       else if 2 ≤ (pySplitWs l).length ∧ l.length < 50 then
         some (l, (pySplitWs l).headD "", (pySplitWs l).getLastD "")
       else ResumeParser.nameFind ls) := rfl

/-- The name loop returns the first qualifying line of the list it is
given. -/
theorem nameFind_first_qual (pre : List String) (l : String) (rest : List String)
    (hpre : ∀ l' ∈ pre, ResumeParser.nameQualifies l' = false)
    (hl : ResumeParser.nameQualifies l = true) :
    ResumeParser.nameFind (pre ++ l :: rest) =
      some (l, (pySplitWs l).headD "", (pySplitWs l).getLastD "") := by
  induction pre with
  | nil =>
    rw [List.nil_append, nameFind_cons]
    rw [ResumeParser.nameQualifies] at hl
    simp only [Bool.and_eq_true, Bool.not_eq_true', decide_eq_true_eq] at hl
    rw [if_neg (by simp [hl.1.1, hl.1.2]), if_pos ⟨hl.2.1, hl.2.2⟩]
  | cons p pre ih =>
    have hp := hpre p (List.mem_cons_self _ _)
    rw [ResumeParser.nameQualifies] at hp
    rw [List.cons_append, nameFind_cons]
    by_cases hskip : ((emailFindFirst p).isSome || namePhoneSearch p) = true
    · rw [if_pos hskip]
      exact ih (fun l' hm => hpre l' (List.mem_cons_of_mem _ hm))
    · rw [if_neg hskip]
      simp only [Bool.or_eq_true, not_or, Bool.not_eq_true] at hskip
      rw [if_neg ?_]
      · exact ih (fun l' hm => hpre l' (List.mem_cons_of_mem _ hm))
      · intro hcond
        rw [hskip.1, hskip.2] at hp
        simp at hp
        omega

/-- C6: whenever the line list starts, within its first five lines, with
lines that all fail the name filter followed by a qualifying line `l`
(no email or phone substring, at least two whitespace tokens, under 50
characters), the final record's full name is `l` and the first/last names
are its first/last whitespace tokens. -/
theorem c6_name_heuristic (text : String) (pre : List String) (l : String) (rest : List String)
    (hsplit : pyLines text = pre ++ l :: rest)
    (hlen : pre.length + 1 ≤ 5)
    (hpre : ∀ l' ∈ pre, ResumeParser.nameQualifies l' = false)
    (hl : ResumeParser.nameQualifies l = true) :
    (ResumeParser.parseText text).personal.full_name = some l ∧
      (ResumeParser.parseText text).personal.first_name = some ((pySplitWs l).headD "") ∧
      (ResumeParser.parseText text).personal.last_name = some ((pySplitWs l).getLastD "") := by
  have hgate : pyStrip text ≠ "" := by
    apply gate_of_pyLines_ne_nil
    rw [hsplit]
    simp
  unfold ResumeParser.parseText
  rw [if_pos hgate]
  have htake : (pyLines text).take 5 = pre ++ l :: rest.take (4 - pre.length) := by
    rw [hsplit, List.take_append_eq_append_take,
      List.take_of_length_le (by omega : pre.length ≤ 5)]
    congr 1
    have h5 : 5 - pre.length = (4 - pre.length) + 1 := by omega
    rw [h5, List.take_succ_cons]
  have hname : ResumeParser.nameFind ((pyLines text).take 5) =
      some (l, (pySplitWs l).headD "", (pySplitWs l).getLastD "") := by
    rw [htake]
    exact nameFind_first_qual pre l _ hpre hl
  refine ⟨?_, ?_, ?_⟩ <;>
    · show (ResumeParser.nameFind ((pyLines text).take 5)).map _ = _
      rw [hname]
      rfl

/-- C6 witness: the spec's concrete instance, first line `"Jane Q. Doe"`
followed by an unrelated line. -/
theorem c6_name_heuristic_witness :
    (ResumeParser.parseText "Jane Q. Doe\nBuilder of useful things").personal.full_name =
        some "Jane Q. Doe" ∧
      (ResumeParser.parseText "Jane Q. Doe\nBuilder of useful things").personal.first_name =
        some "Jane" ∧
      (ResumeParser.parseText "Jane Q. Doe\nBuilder of useful things").personal.last_name =
        some "Doe" := by
  have h := c6_name_heuristic "Jane Q. Doe\nBuilder of useful things" [] "Jane Q. Doe"
    ["Builder of useful things"] (by decide) (by decide) (by simp) (by decide)
  refine ⟨h.1, ?_, ?_⟩
  · rw [h.2.1]
    decide
  · rw [h.2.2]
    decide

/-! ## C10 -/

theorem eduLoop_cons (sec : Bool) (l : String) (ls : List String) :
    ResumeParser.eduLoop sec (l :: ls) =
      (if anyKw (pyLower l) ResumeParser.edu_trigger_keywords then ResumeParser.eduLoop true ls
       else if sec && anyKw (pyLower l) ResumeParser.edu_stop_keywords then []
       else if sec || anyKw (pyLower l) ["university", "college"] then
         if anyKw (pyLower l) ResumeParser.work_indicators then ResumeParser.eduLoop sec ls
         else if anyKw (pyLower l) ResumeParser.institution_keywords &&
             !anyKw (pyLower l) ResumeParser.work_indicators then
           ResumeParser.mkEduEntry l :: ResumeParser.eduLoop sec ls
         else ResumeParser.eduLoop sec ls
       else ResumeParser.eduLoop sec ls) := rfl

theorem mkEduEntry_degree (l : String) :
    (ResumeParser.mkEduEntry l).degree = "" ∨
      (ResumeParser.mkEduEntry l).degree = (ResumeParser.mkEduEntry l).school := by
  rw [ResumeParser.mkEduEntry]
  dsimp only
  split
  · right; rfl
  · left; rfl

theorem eduLoop_degree_inv (sec : Bool) (ls : List String) :
    ∀ e ∈ ResumeParser.eduLoop sec ls, e.degree = "" ∨ e.degree = e.school := by
  induction ls generalizing sec with
  | nil => intro e he; simp [ResumeParser.eduLoop] at he
  | cons l ls ih =>
    intro e he
    rw [eduLoop_cons] at he
    split at he
    · exact ih true e he
    · split at he
      · cases he
      · split at he
        · split at he
          · exact ih sec e he
          · split at he
            · rcases List.mem_cons.mp he with rfl | hm
              · exact mkEduEntry_degree l
              · exact ih sec e hm
            · exact ih sec e he
        · exact ih sec e he

theorem enhanced_eduLoop_cons (sec : Bool) (l : String) (ls : List String) :
    EnhancedResumeParser.eduLoop sec (l :: ls) =
      (if anyKw (pyLower l) ["education", "academic"] then EnhancedResumeParser.eduLoop true ls
       else if sec && anyKw (pyLower l) ["experience", "skills", "projects", "work"] then []
       else if sec || anyKw (pyLower l) ["university", "college"] then
         if anyKw (pyLower l) EnhancedResumeParser.work_indicators then
           EnhancedResumeParser.eduLoop sec ls
         else if anyKw (pyLower l) ["university", "college", "institute"] &&
             !anyKw (pyLower l) EnhancedResumeParser.work_indicators then
           EnhancedResumeParser.mkEduEntry l :: EnhancedResumeParser.eduLoop sec ls
         else EnhancedResumeParser.eduLoop sec ls
       else EnhancedResumeParser.eduLoop sec ls) := rfl

theorem enhanced_mkEduEntry_degree (l : String) :
    (EnhancedResumeParser.mkEduEntry l).degree = "" ∨
      (EnhancedResumeParser.mkEduEntry l).degree = (EnhancedResumeParser.mkEduEntry l).school := by
  rw [EnhancedResumeParser.mkEduEntry]
  dsimp only
  split
  · right; rfl
  · left; rfl

theorem enhanced_eduLoop_degree_inv (sec : Bool) (ls : List String) :
    ∀ e ∈ EnhancedResumeParser.eduLoop sec ls, e.degree = "" ∨ e.degree = e.school := by
  induction ls generalizing sec with
  | nil => intro e he; simp [EnhancedResumeParser.eduLoop] at he
  | cons l ls ih =>
    intro e he
    rw [enhanced_eduLoop_cons] at he
    split at he
    · exact ih true e he
    · split at he
      · cases he
      · split at he
        · split at he
          · exact ih sec e he
          · split at he
            · rcases List.mem_cons.mp he with rfl | hm
              · exact enhanced_mkEduEntry_degree l
              · exact ih sec e hm
            · exact ih sec e he
        · exact ih sec e he

/-- C10: in every education entry of the final record — for the canonical
`ResumeParser` record and for `EnhancedResumeParser.parse_education` alike —
the degree field is either empty or exactly the school field, because both
are taken from the same stripped line. -/
theorem c10_degree_school (text : String) :
    (∀ e ∈ (ResumeParser.parseText text).education, e.degree = "" ∨ e.degree = e.school) ∧
    (∀ e ∈ EnhancedResumeParser.parse_education text, e.degree = "" ∨ e.degree = e.school) := by
  constructor
  · intro e he
    unfold ResumeParser.parseText at he
    split at he
    · exact eduLoop_degree_inv false (pyLines text) e (List.mem_of_mem_take he)
    · simp [emptyRecord] at he
  · intro e he
    exact enhanced_eduLoop_degree_inv false (pyLines text) e (List.mem_of_mem_take he)

/-- C10 witness: a concrete record with an education entry whose degree
duplicates the school line. -/
theorem c10_degree_school_witness :
    ({ school := "Bachelor University 2020", degree := "Bachelor University 2020",
        year := "2020" } : EduEntry).degree = "" ∨
      ({ school := "Bachelor University 2020", degree := "Bachelor University 2020",
          year := "2020" } : EduEntry).degree =
        ({ school := "Bachelor University 2020", degree := "Bachelor University 2020",
            year := "2020" } : EduEntry).school :=
  (c10_degree_school "Education\nBachelor University 2020").1
    { school := "Bachelor University 2020", degree := "Bachelor University 2020",
      year := "2020" } (by decide)

/-! ## C7 -/

/-- The invariant carried through the skills construction: the ordered set
starts with the canonical `"Python"` entry and stays duplicate-free. -/
def SkInv (xs : List String) : Prop := xs.head? = some "Python" ∧ xs.Nodup

theorem osAdd_inv {xs : List String} (h : SkInv xs) (x : String) : SkInv (osAdd xs x) := by
  rcases h with ⟨hh, hn⟩
  rw [osAdd]
  split
  · exact ⟨hh, hn⟩
  · constructor
    · rcases xs with _ | ⟨a, t⟩
      · cases hh
      · simpa using hh
    · rw [← List.concat_eq_append]
      exact List.Nodup.concat (by assumption) hn

theorem techFold_inv (tl : String) (ts : List String) (pr : List String × List String)
    (h : SkInv pr.1) :
    SkInv (ts.foldl
      (fun (pr : List String × List String) sk =>
        if strHasSub tl sk then (osAdd pr.1 (pyTitle sk), osAdd pr.2 (pyTitle sk)) else pr)
      pr).1 := by
  induction ts generalizing pr with
  | nil => exact h
  | cons t ts ih =>
    rw [List.foldl_cons]
    apply ih
    split
    · exact osAdd_inv h _
    · exact h

theorem softFold_inv (tl : String) (ts : List String) (al : List String) (h : SkInv al) :
    SkInv (ts.foldl
      (fun (al : List String) sk => if strHasSub tl sk then osAdd al (pyTitle sk) else al)
      al) := by
  induction ts generalizing al with
  | nil => exact h
  | cons t ts ih =>
    rw [List.foldl_cons]
    apply ih
    split
    · exact osAdd_inv h _
    · exact h

theorem tokensFold_inv (acc : List String × List String) (techSec : Bool) (l : String)
    (h : SkInv acc.1) : SkInv (ResumeParser.tokensFold acc techSec l).1 := by
  rw [ResumeParser.tokensFold]
  generalize ResumeParser.splitDelims l = ws
  induction ws generalizing acc with
  | nil => exact h
  | cons w ws ih =>
    rw [List.foldl_cons]
    apply ih
    dsimp only
    split
    · exact osAdd_inv h _
    · exact h

theorem skLoop_inv (sec techSec : Bool) (acc : List String × List String) (ls : List String)
    (h : SkInv acc.1) : SkInv (ResumeParser.skLoop sec techSec acc ls).1 := by
  induction ls generalizing sec techSec acc with
  | nil => exact h
  | cons l ls ih =>
    show SkInv (ResumeParser.skLoop sec techSec acc (l :: ls)).1
    rw [show ResumeParser.skLoop sec techSec acc (l :: ls) =
        (if anyKw (pyLower l) ResumeParser.skills_trigger_keywords then
          ResumeParser.skLoop true (techSec || strHasSub (pyLower l) "technical") acc ls
        else if sec && anyKw (pyLower l) ResumeParser.skills_stop_keywords then
          ResumeParser.skLoop false false acc ls
        else if sec then
          ResumeParser.skLoop sec techSec (ResumeParser.tokensFold acc techSec l) ls
        else ResumeParser.skLoop sec techSec acc ls) from rfl]
    split
    · exact ih _ _ _ h
    · split
      · exact ih _ _ _ h
      · split
        · exact ih _ _ _ (tokensFold_inv acc techSec l h)
        · exact ih _ _ _ h

theorem count_python_take (xs : List String) (h : SkInv xs) :
    (xs.take 25).count "Python" = 1 := by
  rcases h with ⟨hh, hn⟩
  rcases xs with _ | ⟨a, t⟩
  · cases hh
  · have ha : a = "Python" := by simpa using hh
    subst ha
    rw [show (25 : Nat) = 24 + 1 from rfl, List.take_succ_cons]
    refine List.count_eq_one_of_mem ?_ ?_
    · exact List.Nodup.sublist (List.Sublist.cons₂ _ (List.take_sublist _ _)) hn
    · exact List.mem_cons_self _ _

/-- C7 (counterexample): a text mentioning both `Python` and `python`
whose final skills list contains both the canonical `"Python"` and the
verbatim skills-section token `"python"` — a case-variant duplicate. -/
theorem c7_counterexample :
    strHasSub "Skills\npython, Python" "Python" = true ∧
      strHasSub "Skills\npython, Python" "python" = true ∧
      "Python" ∈ (ResumeParser.parseText "Skills\npython, Python").skills ∧
      "python" ∈ (ResumeParser.parseText "Skills\npython, Python").skills := by
  refine ⟨?_, ?_, ?_, ?_⟩ <;> decide

/-- C7 (amended): for every text mentioning `python` in any letter case,
the vocabulary scan contributes the canonical title-cased `"Python"` entry
exactly once to the final skills list (the list is duplicate-free);
a lower-case `python` token inside a skills section may still appear as a
separate verbatim entry. -/
theorem c7_python_once (text : String) (h : strHasSub (pyLower text) "python" = true) :
    (ResumeParser.parseText text).skills.count "Python" = 1 := by
  unfold ResumeParser.parseText
  rw [if_pos (gate_of_python_sub h)]
  show (ResumeParser.parse_skills text).1.count "Python" = 1
  rw [ResumeParser.parse_skills]
  dsimp only
  rw [show ResumeParser.tech_skills_list = "python" :: ResumeParser.tech_skills_list.tail from rfl,
    List.foldl_cons]
  rw [if_pos h]
  apply count_python_take
  apply skLoop_inv
  dsimp only
  apply softFold_inv
  apply techFold_inv
  constructor
  · decide
  · decide

/-- C7 witness: the amended premise is satisfiable. -/
theorem c7_python_once_witness :
    (ResumeParser.parseText "I write python tools").skills.count "Python" = 1 :=
  c7_python_once "I write python tools" (by decide)

/-! ## C8 -/

/-- C8 (counterexample): the line `"2020 2020"` yields exactly one
*distinct* date token, yet the helper sets `end_date` as well, because the
source counts matches with multiplicity, not distinct tokens. -/
theorem c8_counterexample :
    ((EnhancedResumeParser.extract_dates_from_string "2020 2020" {}).2).eraseDups.length = 1 ∧
      (EnhancedResumeParser.extract_dates_from_string "2020 2020" {}).1.end_date =
        some "2020" := by
  constructor <;> decide

/-- C8 (amended): the three date patterns are matched with `re.findall` in
the order Month-Year, Year-Year, bare Year and their matches concatenated;
if at least 2 matches are collected — counted with multiplicity, not
necessarily distinct — the string form of the first becomes `start_date`
and of the second `end_date`; with exactly 1 only `start_date` is set; with
0 the record is returned unmodified. -/
theorem c8_dates (line : String) (record : EnhancedResumeParser.DatedRec) :
    (∀ t1 t2 ts, EnhancedResumeParser.datesFound line = t1 :: t2 :: ts →
        (EnhancedResumeParser.extract_dates_from_string line record).1 =
          { start_date := some (pyStrTok t1), end_date := some (pyStrTok t2) }) ∧
    (∀ t1, EnhancedResumeParser.datesFound line = [t1] →
        (EnhancedResumeParser.extract_dates_from_string line record).1 =
          { record with start_date := some (pyStrTok t1) }) ∧
    (EnhancedResumeParser.datesFound line = [] →
        (EnhancedResumeParser.extract_dates_from_string line record).1 = record) ∧
    (EnhancedResumeParser.extract_dates_from_string line record).2 =
      EnhancedResumeParser.datesFound line := by
  unfold EnhancedResumeParser.extract_dates_from_string
  dsimp only
  refine ⟨?_, ?_, ?_, ?_⟩
  · intro t1 t2 ts h
    rw [h]
  · intro t1 h
    rw [h]
  · intro h
    rw [h]
  · rcases h : EnhancedResumeParser.datesFound line with _ | ⟨t1, _ | ⟨t2, ts⟩⟩ <;> rfl

/-- C8 witness: a line with two (distinct) bare-year matches. -/
theorem c8_dates_witness :
    (EnhancedResumeParser.extract_dates_from_string "2020 2021" {}).1 =
      { start_date := some (pyStrTok (DateTok.single "2020")),
        end_date := some (pyStrTok (DateTok.single "2021")) } :=
  (c8_dates "2020 2021" {}).1 (DateTok.single "2020") (DateTok.single "2021") [] (by decide)

/-! ## C3 -/

theorem expLoop_nil (sec : Bool) (cur : Option Job) :
    ResumeParser.expLoop sec cur [] = ⟨[], cur, sec, false⟩ := rfl

theorem expLoop_cons (sec : Bool) (cur : Option Job) (l : String) (ls : List String) :
    ResumeParser.expLoop sec cur (l :: ls) =
      (if anyKw (pyLower l) ResumeParser.exp_start_keywords then ResumeParser.expLoop true cur ls
       else if sec && anyKw (pyLower l) ResumeParser.exp_stop_keywords then
         ⟨cur.toList, cur, sec, true⟩
       else if sec && anyWordSearch ResumeParser.job_title_words (pyLower l) then
         ⟨cur.toList ++ (ResumeParser.expLoop sec (some (ResumeParser.newJob l)) ls).emitted,
           (ResumeParser.expLoop sec (some (ResumeParser.newJob l)) ls).cur,
           (ResumeParser.expLoop sec (some (ResumeParser.newJob l)) ls).sec,
           (ResumeParser.expLoop sec (some (ResumeParser.newJob l)) ls).broke⟩
       else if sec then
         match cur with
         | some j =>
           if j.company == "" && anyKw (pyLower l) ResumeParser.company_indicators then
             ResumeParser.expLoop sec (some { j with company := pyStrip l }) ls
           else ResumeParser.expLoop sec cur ls
         | none => ResumeParser.expLoop sec cur ls
       else ResumeParser.expLoop sec cur ls) := rfl

/-- Every job the experience scan can ever produce takes its title either
from the job that was current when the scan started or from one of the
scanned lines (as that line, stripped). -/
theorem expLoop_titles (ls : List String) : ∀ (sec : Bool) (cur : Option Job) (j : Job),
    (j ∈ (ResumeParser.expLoop sec cur ls).emitted ∨
      (ResumeParser.expLoop sec cur ls).cur = some j) →
    (∃ j0, cur = some j0 ∧ j.title = j0.title) ∨ ∃ l ∈ ls, j.title = pyStrip l := by
  induction ls with
  | nil =>
    intro sec cur j h
    rcases h with hm | hc
    · rw [expLoop_nil] at hm
      cases hm
    · rw [expLoop_nil] at hc
      exact Or.inl ⟨j, hc, rfl⟩
  | cons l ls ih =>
    intro sec cur j h
    rw [expLoop_cons] at h
    split at h
    · rcases ih _ _ _ h with hl | ⟨l', hl', ht⟩
      · exact Or.inl hl
      · exact Or.inr ⟨l', List.mem_cons_of_mem _ hl', ht⟩
    · split at h
      · left
        rcases h with hm | hc
        · rcases cur with _ | j0
          · cases hm
          · have hj : j = j0 := by simpa using hm
            exact ⟨j0, rfl, by rw [hj]⟩
        · exact ⟨j, by simpa using hc, rfl⟩
      · split at h
        · rcases h with hm | hc
          · rcases (by simpa using hm :
                cur = some j ∨
                  j ∈ (ResumeParser.expLoop sec (some (ResumeParser.newJob l)) ls).emitted) with
              hmc | hme
            · exact Or.inl ⟨j, hmc, rfl⟩
            · rcases ih _ _ _ (Or.inl hme) with ⟨j0, hj0, ht⟩ | ⟨l', hl', ht⟩
              · right
                refine ⟨l, List.mem_cons_self _ _, ?_⟩
                rw [ht, ← Option.some.inj hj0]
                rfl
              · exact Or.inr ⟨l', List.mem_cons_of_mem _ hl', ht⟩
          · have hc' : (ResumeParser.expLoop sec (some (ResumeParser.newJob l)) ls).cur =
                some j := by simpa using hc
            rcases ih _ _ _ (Or.inr hc') with ⟨j0, hj0, ht⟩ | ⟨l', hl', ht⟩
            · right
              refine ⟨l, List.mem_cons_self _ _, ?_⟩
              rw [ht, ← Option.some.inj hj0]
              rfl
            · exact Or.inr ⟨l', List.mem_cons_of_mem _ hl', ht⟩
        · split at h
          · rcases cur with _ | j0
            · rcases ih _ _ _ h with hl | ⟨l', hl', ht⟩
              · exact Or.inl hl
              · exact Or.inr ⟨l', List.mem_cons_of_mem _ hl', ht⟩
            · have h2 : j ∈ (if (j0.company == "" &&
                      anyKw (pyLower l) ResumeParser.company_indicators) = true then
                    ResumeParser.expLoop sec (some { j0 with company := pyStrip l }) ls
                  else ResumeParser.expLoop sec (some j0) ls).emitted ∨
                  (if (j0.company == "" &&
                      anyKw (pyLower l) ResumeParser.company_indicators) = true then
                    ResumeParser.expLoop sec (some { j0 with company := pyStrip l }) ls
                  else ResumeParser.expLoop sec (some j0) ls).cur = some j := h
              split at h2
              · rcases ih _ _ _ h2 with ⟨j0', hj0', ht⟩ | ⟨l', hl', ht⟩
                · left
                  refine ⟨j0, rfl, ?_⟩
                  rw [ht, ← Option.some.inj hj0']
                · exact Or.inr ⟨l', List.mem_cons_of_mem _ hl', ht⟩
              · rcases ih _ _ _ h2 with hl | ⟨l', hl', ht⟩
                · exact Or.inl hl
                · exact Or.inr ⟨l', List.mem_cons_of_mem _ hl', ht⟩
          · rcases ih _ _ _ h with hl | ⟨l', hl', ht⟩
            · exact Or.inl hl
            · exact Or.inr ⟨l', List.mem_cons_of_mem _ hl', ht⟩

/-- Branch equations for one step of the experience scan. -/
theorem expLoop_start (sec : Bool) (cur : Option Job) (l : String) (ls : List String)
    (h : anyKw (pyLower l) ResumeParser.exp_start_keywords = true) :
    ResumeParser.expLoop sec cur (l :: ls) = ResumeParser.expLoop true cur ls := by
  rw [expLoop_cons, if_pos h]

theorem expLoop_stop (cur : Option Job) (l : String) (ls : List String)
    (h1 : anyKw (pyLower l) ResumeParser.exp_start_keywords = false)
    (h2 : anyKw (pyLower l) ResumeParser.exp_stop_keywords = true) :
    ResumeParser.expLoop true cur (l :: ls) = ⟨cur.toList, cur, true, true⟩ := by
  rw [expLoop_cons, if_neg (by simp [h1]), if_pos (by simp [h2])]

theorem expLoop_title (cur : Option Job) (l : String) (ls : List String)
    (h1 : anyKw (pyLower l) ResumeParser.exp_start_keywords = false)
    (h2 : anyKw (pyLower l) ResumeParser.exp_stop_keywords = false)
    (h3 : anyWordSearch ResumeParser.job_title_words (pyLower l) = true) :
    ResumeParser.expLoop true cur (l :: ls) =
      ⟨cur.toList ++ (ResumeParser.expLoop true (some (ResumeParser.newJob l)) ls).emitted,
        (ResumeParser.expLoop true (some (ResumeParser.newJob l)) ls).cur,
        (ResumeParser.expLoop true (some (ResumeParser.newJob l)) ls).sec,
        (ResumeParser.expLoop true (some (ResumeParser.newJob l)) ls).broke⟩ := by
  rw [expLoop_cons, if_neg (by simp [h1]), if_neg (by simp [h2]), if_pos (by simp [h3])]

theorem expLoop_none_step (l : String) (ls : List String)
    (h1 : anyKw (pyLower l) ResumeParser.exp_start_keywords = false)
    (h2 : anyKw (pyLower l) ResumeParser.exp_stop_keywords = false)
    (h3 : anyWordSearch ResumeParser.job_title_words (pyLower l) = false) :
    ResumeParser.expLoop true none (l :: ls) = ResumeParser.expLoop true none ls := by
  rw [expLoop_cons, if_neg (by simp [h1]), if_neg (by simp [h2]), if_neg (by simp [h3]),
    if_pos rfl]

theorem expLoop_comp (j0 : Job) (l : String) (ls : List String)
    (h1 : anyKw (pyLower l) ResumeParser.exp_start_keywords = false)
    (h2 : anyKw (pyLower l) ResumeParser.exp_stop_keywords = false)
    (h3 : anyWordSearch ResumeParser.job_title_words (pyLower l) = false)
    (hcomp : (j0.company == "" && anyKw (pyLower l) ResumeParser.company_indicators) = true) :
    ResumeParser.expLoop true (some j0) (l :: ls) =
      ResumeParser.expLoop true (some { j0 with company := pyStrip l }) ls := by
  rw [expLoop_cons, if_neg (by simp [h1]), if_neg (by simp [h2]), if_neg (by simp [h3]),
    if_pos rfl]
  show (if (j0.company == "" && anyKw (pyLower l) ResumeParser.company_indicators) = true then
      ResumeParser.expLoop true (some { j0 with company := pyStrip l }) ls
    else ResumeParser.expLoop true (some j0) ls) = _
  rw [if_pos hcomp]

theorem expLoop_nocomp (j0 : Job) (l : String) (ls : List String)
    (h1 : anyKw (pyLower l) ResumeParser.exp_start_keywords = false)
    (h2 : anyKw (pyLower l) ResumeParser.exp_stop_keywords = false)
    (h3 : anyWordSearch ResumeParser.job_title_words (pyLower l) = false)
    (hcomp : (j0.company == "" && anyKw (pyLower l) ResumeParser.company_indicators) = false) :
    ResumeParser.expLoop true (some j0) (l :: ls) = ResumeParser.expLoop true (some j0) ls := by
  rw [expLoop_cons, if_neg (by simp [h1]), if_neg (by simp [h2]), if_neg (by simp [h3]),
    if_pos rfl]
  show (if (j0.company == "" && anyKw (pyLower l) ResumeParser.company_indicators) = true then
      ResumeParser.expLoop true (some { j0 with company := pyStrip l }) ls
    else ResumeParser.expLoop true (some j0) ls) = _
  rw [if_neg (by simp [hcomp])]

theorem expLoop_secfalse (cur : Option Job) (l : String) (ls : List String)
    (h1 : anyKw (pyLower l) ResumeParser.exp_start_keywords = false) :
    ResumeParser.expLoop false cur (l :: ls) = ResumeParser.expLoop false cur ls := by
  rw [expLoop_cons, if_neg (by simp [h1])]
  rfl

/-- Splitting the experience scan at a list boundary: once `break` fires the
rest of the lines is never seen, otherwise the scan continues from the
reached state. -/
theorem expLoop_append (xs : List String) : ∀ (sec : Bool) (cur : Option Job) (ys : List String),
    ResumeParser.expLoop sec cur (xs ++ ys) =
      (if (ResumeParser.expLoop sec cur xs).broke then ResumeParser.expLoop sec cur xs
       else
         ⟨(ResumeParser.expLoop sec cur xs).emitted ++
             (ResumeParser.expLoop (ResumeParser.expLoop sec cur xs).sec
               (ResumeParser.expLoop sec cur xs).cur ys).emitted,
           (ResumeParser.expLoop (ResumeParser.expLoop sec cur xs).sec
             (ResumeParser.expLoop sec cur xs).cur ys).cur,
           (ResumeParser.expLoop (ResumeParser.expLoop sec cur xs).sec
             (ResumeParser.expLoop sec cur xs).cur ys).sec,
           (ResumeParser.expLoop (ResumeParser.expLoop sec cur xs).sec
             (ResumeParser.expLoop sec cur xs).cur ys).broke⟩) := by
  induction xs with
  | nil =>
    intro sec cur ys
    rw [List.nil_append, expLoop_nil]
    simp
  | cons l xs ih =>
    intro sec cur ys
    rw [List.cons_append]
    by_cases hc1 : anyKw (pyLower l) ResumeParser.exp_start_keywords = true
    · rw [expLoop_start _ _ _ _ hc1, expLoop_start _ _ _ _ hc1]
      exact ih true cur ys
    · have hc1' : anyKw (pyLower l) ResumeParser.exp_start_keywords = false := by
        simpa using hc1
      by_cases hsec : sec = true
      · subst hsec
        by_cases hc2 : anyKw (pyLower l) ResumeParser.exp_stop_keywords = true
        · rw [expLoop_stop _ _ _ hc1' hc2, expLoop_stop _ _ _ hc1' hc2]
          rfl
        · have hc2' : anyKw (pyLower l) ResumeParser.exp_stop_keywords = false := by
            simpa using hc2
          by_cases hc3 : anyWordSearch ResumeParser.job_title_words (pyLower l) = true
          · rw [expLoop_title _ _ _ hc1' hc2' hc3, expLoop_title _ _ _ hc1' hc2' hc3,
              ih true (some (ResumeParser.newJob l)) ys]
            by_cases hb :
                (ResumeParser.expLoop true (some (ResumeParser.newJob l)) xs).broke = true
            · rw [if_pos hb]
              simp only [hb]
              simp
            · rw [if_neg hb]
              simp only [Bool.not_eq_true] at hb
              simp only [hb]
              rw [if_neg (by simp)]
              simp [List.append_assoc]
          · have hc3' : anyWordSearch ResumeParser.job_title_words (pyLower l) = false := by
              simpa using hc3
            rcases cur with _ | j0
            · rw [expLoop_none_step _ _ hc1' hc2' hc3', expLoop_none_step _ _ hc1' hc2' hc3']
              exact ih true none ys
            · by_cases hcomp : (j0.company == "" &&
                  anyKw (pyLower l) ResumeParser.company_indicators) = true
              · rw [expLoop_comp _ _ _ hc1' hc2' hc3' hcomp,
                  expLoop_comp _ _ _ hc1' hc2' hc3' hcomp]
                exact ih true _ ys
              · have hcomp' : (j0.company == "" &&
                    anyKw (pyLower l) ResumeParser.company_indicators) = false := by
                  simpa using hcomp
                rw [expLoop_nocomp _ _ _ hc1' hc2' hc3' hcomp',
                  expLoop_nocomp _ _ _ hc1' hc2' hc3' hcomp']
                exact ih true _ ys
      · have hsec' : sec = false := by simpa using hsec
        subst hsec'
        rw [expLoop_secfalse _ _ _ hc1', expLoop_secfalse _ _ _ hc1']
        exact ih false cur ys

/-- While the section flag is off, lines without a start keyword change
nothing. -/
theorem expLoop_off (ls : List String) : ∀ (cur : Option Job),
    (∀ l ∈ ls, anyKw (pyLower l) ResumeParser.exp_start_keywords = false) →
    ResumeParser.expLoop false cur ls = ⟨[], cur, false, false⟩ := by
  induction ls with
  | nil => intro cur _; rfl
  | cons l ls ih =>
    intro cur h
    rw [expLoop_cons, if_neg (by simp [h l (List.mem_cons_self _ _)])]
    show ResumeParser.expLoop false cur ls = _
    exact ih cur (fun l' hm => h l' (List.mem_cons_of_mem _ hm))

theorem startsWithL_iff (n : List Char) : ∀ hay, startsWithL n hay = true ↔ n <+: hay := by
  induction n with
  | nil => intro hay; simp [startsWithL]
  | cons a as ih =>
    intro hay
    cases hay with
    | nil => simp [startsWithL]
    | cons b bs =>
      rw [startsWithL, List.cons_prefix_cons]
      simp [ih, Bool.and_eq_true, beq_iff_eq]

theorem hasSubL_iff (n : List Char) : ∀ hay, hasSubL n hay = true ↔ n <:+: hay := by
  intro hay
  induction hay with
  | nil =>
    rw [hasSubL, startsWithL_iff]
    simp
  | cons c t ih =>
    rw [hasSubL]
    simp only [Bool.or_eq_true, startsWithL_iff, ih]
    exact (List.infix_cons_iff).symm

/-- Substring monotonicity: if `b` occurs inside `a` and `a` is a substring
of `s`, so is `b`; contrapositively, `s` without `b` lacks `a` too. -/
theorem strHasSub_mono_false (s a b : String) (hab : b.data <:+: a.data)
    (h : strHasSub s b = false) : strHasSub s a = false := by
  by_contra hx
  have hx' : hasSubL a.data s.data = true := by
    rw [strHasSub] at hx
    simpa using hx
  have hb : b.data <:+: s.data := hab.trans ((hasSubL_iff _ _).mp hx')
  rw [strHasSub] at h
  exact absurd ((hasSubL_iff _ _).mpr hb) (by simp [h])

/-- C3 (counterexample): `"Academic Background"` triggers the Education
section (keyword `academic`) and `"Senior Engineer"` follows it before any
terminator, yet an experience entry is built from that line, because the
experience scan only terminates on `education`/`skills`/`projects` lines
and its section was opened by the earlier `"Experience"` line. -/
theorem c3_counterexample :
    pyLines "Experience\nAcademic Background\nSenior Engineer" =
        ["Experience", "Academic Background", "Senior Engineer"] ∧
      anyKw (pyLower "Academic Background") ResumeParser.edu_trigger_keywords = true ∧
      anyKw (pyLower "Senior Engineer") ResumeParser.edu_stop_keywords = false ∧
      anyWordSearch ResumeParser.job_title_words (pyLower "Senior Engineer") = true ∧
      (ResumeParser.parseText "Experience\nAcademic Background\nSenior Engineer").experience =
        [{ title := "Senior Engineer", company := "", dates := "", description := "" }] := by
  refine ⟨?_, ?_, ?_, ?_, ?_⟩ <;> decide

/-- C3 (amended): if the line `"Senior Engineer"` appears after a line that
triggers the Education section *via the keyword `education`* and before any
terminator line, and neither that trigger line nor any line between them
contains an experience-section start keyword (`experience`, `employment`,
`work history`), then the final record contains no experience entry built
from that line. -/
theorem c3_section_scope (text : String) (pre : List String) (edu : String)
    (mid post : List String)
    (hsplit : pyLines text = pre ++ edu :: (mid ++ "Senior Engineer" :: post))
    (h1 : strHasSub (pyLower edu) "education" = true)
    (h2 : anyKw (pyLower edu) ResumeParser.exp_start_keywords = false)
    (h3 : ∀ l ∈ mid, anyKw (pyLower l) ResumeParser.edu_stop_keywords = false)
    (h4 : ∀ l ∈ mid, strHasSub (pyLower l) "employment" = false)
    (h5 : ∀ l ∈ pre, pyStrip l ≠ "Senior Engineer")
    (h6 : ∀ l ∈ post, pyStrip l ≠ "Senior Engineer") :
    ∀ j ∈ (ResumeParser.parseText text).experience, j.title ≠ "Senior Engineer" := by
  intro j hj hti
  have hgate : pyStrip text ≠ "" := gate_of_pyLines_ne_nil (by rw [hsplit]; simp)
  unfold ResumeParser.parseText at hj
  rw [if_pos hgate] at hj
  have hj' : j ∈ ResumeParser.clean_experience (ResumeParser.parse_experience text) := hj
  rw [ResumeParser.clean_experience] at hj'
  have hj2 : j ∈ (ResumeParser.expLoop false none (pyLines text)).emitted ++
      (ResumeParser.expLoop false none (pyLines text)).cur.toList :=
    List.mem_of_mem_take (List.mem_of_mem_filter hj')
  have hmem : j ∈ (ResumeParser.expLoop false none (pyLines text)).emitted ∨
      (ResumeParser.expLoop false none (pyLines text)).cur = some j := by
    rcases List.mem_append.mp hj2 with hm | hc
    · exact Or.inl hm
    · exact Or.inr (Option.mem_def.mp (Option.mem_toList.mp hc))
  -- derived facts about the region between the trigger and the line
  have hmid_start : ∀ l ∈ mid, anyKw (pyLower l) ResumeParser.exp_start_keywords = false := by
    intro l hm
    have hstop := h3 l hm
    have hemp := h4 l hm
    rw [anyKw, ResumeParser.edu_stop_keywords] at hstop
    simp only [List.any_cons, List.any_nil, Bool.or_eq_false_iff] at hstop
    have hwh : strHasSub (pyLower l) "work history" = false :=
      strHasSub_mono_false (pyLower l) "work history" "work"
        ⟨[], (" history").data, by decide⟩ hstop.2.2.2.1
    rw [anyKw, ResumeParser.exp_start_keywords]
    simp [hstop.1, hemp, hwh]
  have hstop_edu : anyKw (pyLower edu) ResumeParser.exp_stop_keywords = true := by
    rw [anyKw, ResumeParser.exp_stop_keywords]
    simp [h1]
  -- split the scan at `pre`
  rw [hsplit, expLoop_append pre false none (edu :: (mid ++ "Senior Engineer" :: post))] at hmem
  by_cases hbroke : (ResumeParser.expLoop false none pre).broke = true
  · rw [if_pos hbroke] at hmem
    rcases expLoop_titles pre false none j hmem with ⟨j0, hj0, _⟩ | ⟨l', hl', ht⟩
    · cases hj0
    · exact h5 l' hl' (by rw [← ht, hti])
  · rw [if_neg hbroke] at hmem
    dsimp only at hmem
    have hmem2 : j ∈ (ResumeParser.expLoop (ResumeParser.expLoop false none pre).sec
        (ResumeParser.expLoop false none pre).cur
        (edu :: (mid ++ "Senior Engineer" :: post))).emitted ∨
        (ResumeParser.expLoop (ResumeParser.expLoop false none pre).sec
          (ResumeParser.expLoop false none pre).cur
          (edu :: (mid ++ "Senior Engineer" :: post))).cur = some j := by
    -- either from the pre-segment (contradiction via titles) or from the rest
      rcases hmem with hm | hc
      · rcases List.mem_append.mp hm with hmp | hmr
        · exfalso
          rcases expLoop_titles pre false none j (Or.inl hmp) with ⟨j0, hj0, _⟩ | ⟨l', hl', ht⟩
          · cases hj0
          · exact h5 l' hl' (by rw [← ht, hti])
        · exact Or.inl hmr
      · exact Or.inr hc
    by_cases hs1 : (ResumeParser.expLoop false none pre).sec = true
    · -- experience section is live: the `education` line breaks the scan
      rw [hs1, expLoop_stop _ _ _ h2 hstop_edu] at hmem2
      have hcur : (ResumeParser.expLoop false none pre).cur = some j := by
        rcases hmem2 with hm | hc
        · exact Option.mem_def.mp (Option.mem_toList.mp (by simpa using hm))
        · simpa using hc
      rcases expLoop_titles pre false none j (Or.inr hcur) with ⟨j0, hj0, _⟩ | ⟨l', hl', ht⟩
      · cases hj0
      · exact h5 l' hl' (by rw [← ht, hti])
    · -- section off: it stays off through `edu`, `mid` and the line itself
      have hs1' : (ResumeParser.expLoop false none pre).sec = false := by simpa using hs1
      rw [hs1', expLoop_secfalse _ _ _ h2,
        expLoop_append mid false _ ("Senior Engineer" :: post),
        expLoop_off mid _ hmid_start] at hmem2
      rw [if_neg (by simp)] at hmem2
      dsimp only at hmem2
      rw [expLoop_secfalse _ _ _ (by decide)] at hmem2
      have hmem3 : j ∈ (ResumeParser.expLoop false (ResumeParser.expLoop false none pre).cur
          post).emitted ∨
          (ResumeParser.expLoop false (ResumeParser.expLoop false none pre).cur post).cur =
            some j := by
        rcases hmem2 with hm | hc
        · exact Or.inl (by simpa using hm)
        · exact Or.inr hc
      rcases expLoop_titles post false _ j hmem3 with ⟨j0, hj0, ht0⟩ | ⟨l', hl', ht⟩
      · rcases expLoop_titles pre false none j0 (Or.inr hj0) with ⟨j1, hj1, _⟩ | ⟨l', hl', ht2⟩
        · cases hj1
        · exact h5 l' hl' (by rw [← ht2, ← ht0, hti])
      · exact h6 l' hl' (by rw [← ht, hti])

/-- C3 witness: the amended premise is satisfiable — an `Education` header
line between an experience block and the `Senior Engineer` line shields it. -/
theorem c3_section_scope_witness :
    ({ title := "Staff Manager", company := "", dates := "", description := "" } : Job).title ≠
      "Senior Engineer" :=
  c3_section_scope "Experience\nStaff Manager\nEducation\nSenior Engineer"
    ["Experience", "Staff Manager"] "Education" [] [] (by decide) (by decide) (by decide)
    (by simp) (by simp) (by decide) (by simp)
    { title := "Staff Manager", company := "", dates := "", description := "" } (by decide)

/-- C1 witness: a short direct extraction triggers the fallback. -/
theorem c1_ocr_threshold_witness :
    (ResumeParser.acquireText true [some "short"] true [some "ocr text"]).usedOCR = true :=
  ((c1_ocr_threshold true [some "short"] true [some "ocr text"] true [] "").1).mpr (by decide)
